import Mathlib

/-!
Verification development for the pyecore-py2 reflective object kernel.

The definitions below are a shallow embedding of the runtime feature-value
protocol of src/pyecore/valuecontainer.py and of the lookup, instantiation
and proxy-resolution logic of src/pyecore/ecore.py.  Python objects are
identified by natural-number ids; each object's runtime fields (the ones
EObject.__new__ initialises) form an Obj record, and the whole object graph
together with the chronological notification log forms a State.  Mutating
methods become functions State -> State x Option Err, where a some error
models the Python call raising at exactly that point, with the returned
state holding every mutation applied before the raise.

Modelling notes, each marked again at the definition it concerns:
  - Resources (XMI serialisation layer) are out of scope; in every modelled
    state value.eResource is None, so the resource-contents removal branch
    of PyEcoreValue._update_container is a no-op.
  - notify(...) invokes listeners synchronously; listeners are external
    observers here, so notify appends the notification to the state log.
  - Python set.remove / list.remove raise when the element is absent; the
    physical removals test membership and return the corresponding error
    with the state reached at the raise point.
  - object.__setattr__ honours data descriptors (only an overridden
    __setattr__ is bypassed), so the unset branch for a single-valued
    opposite re-enters the old target's EValue._set(None) through
    EStructuralFeature.__set__ with the default update_opposite=True; the
    embedding indexes this recursion by the interpreter's recursion
    headroom (python_stack_limit) and returns recursionError on exhaustion.
  - EOrderedSet.update's _orderedset_update flag is per-collection runtime
    state, kept as the osetUpd field of the owning object; update sets it
    with no try/finally, so a rejected update returns with it still set.
  - The isinstance chain (isinstance plus the __isinstance__ hook) is
    abstracted as a class-id membership test.
-/

set_option maxRecDepth 4000

abbrev ObjId := Nat
abbrev FeatId := Nat

/-- Runtime value held by a single-valued feature slot: Python None or a
reference to an object. -/
inductive Value where
  | vnone
  | vobj (o : ObjId)
  deriving DecidableEq, Repr

/-- Notification kinds (pyecore.notification.Kind). -/
inductive NKind where
  | set
  | unset
  | add
  | remove
  | addMany
  | removeMany
  deriving DecidableEq, Repr

/-- Payload of a notification's old or new slot: absent, a single value, or
a list of inserted or removed objects. -/
inductive NVal where
  | nnone
  | one (v : Value)
  | many (vs : List ObjId)
  deriving DecidableEq, Repr

/-- Notification record; target is the object whose notify method received
it (always the owner of the mutated feature in valuecontainer.py). -/
structure Notif where
  target : ObjId
  feature : FeatId
  kind : NKind
  old : NVal := .nnone
  new : NVal := .nnone
  deriving DecidableEq, Repr

/-- Error kinds raised by the embedded kernel code. -/
inductive Err where
  | badValue
  | notPermitted
  | resolutionError
  | keyError
  | valueError
  | recursionError
  deriving DecidableEq, Repr

/-- Declared type of a feature; the Python isinstance chain is abstracted as
a class-id membership test, with acceptAll covering types every modelled
object satisfies. -/
structure TypeDesc where
  acceptAll : Bool := true
  classes : List Nat := []
  deriving DecidableEq, Repr

def TypeDesc.accepts (t : TypeDesc) (cls : Nat) : Bool :=
  t.acceptAll || t.classes.contains cls

/-- Static description of an EStructuralFeature: the fields consulted by the
valuecontainer.py mutation protocol (EReference-ness, containment, the
opposite feature, cardinality and the ordered/unique/derived flags that
drive ECollection.create), plus the declared type and the default value
get_default_value would produce. -/
structure Feature where
  isRef : Bool := false
  containment : Bool := false
  eOpposite : Option FeatId := none
  many : Bool := false
  ordered : Bool := true
  unique : Bool := true
  derived : Bool := false
  etype : TypeDesc := {}
  defaultVal : Value := .vnone
  deriving DecidableEq, Repr

/-- The feature table of the metamodel in force. -/
structure Model where
  feats : List (FeatId × Feature) := []
  deriving DecidableEq, Repr

/-- Association-list lookup on Nat keys. -/
def alookup {α : Type} (l : List (Nat × α)) (k : Nat) : Option α :=
  match l with
  | [] => none
  | (k', v) :: t => if k' = k then some v else alookup t k

/-- Association-list update on Nat keys, replacing the first binding. -/
def setAssoc {α : Type} (l : List (Nat × α)) (k : Nat) (v : α) : List (Nat × α) :=
  match l with
  | [] => [(k, v)]
  | (k', v') :: t => if k' = k then (k, v) :: t else (k', v') :: setAssoc t k v

def Model.feat (m : Model) (f : FeatId) : Feature :=
  (alookup m.feats f).getD {}

/-- Python set.add: append the element unless already present. -/
def setAdd {α : Type} [DecidableEq α] (l : List α) (x : α) : List α :=
  if x ∈ l then l else l ++ [x]

/-- Python set.update: fold set.add over the second operand. -/
def listUnion {α : Type} [DecidableEq α] (l1 l2 : List α) : List α :=
  l2.foldl setAdd l1

/-- Per-object runtime state: the fields EObject.__new__ (ecore.py lines
139-150) initialises, with singleVals/manyVals holding the feature slots the
EStructuralFeature descriptor lazily creates in instance dicts. -/
structure Obj where
  cls : Nat := 0
  singleVals : List (FeatId × Value) := []
  manyVals : List (FeatId × List ObjId) := []
  isset : List FeatId := []
  container : Option ObjId := none
  cfeature : Option FeatId := none
  invRels : List (ObjId × FeatId) := []
  osetUpd : List FeatId := []
  isProxy : Bool := false
  resolved : Bool := true
  deriving DecidableEq, Repr

instance : Inhabited Obj := ⟨{}⟩

/-- Whole object graph plus the chronological notification log. -/
structure State where
  objs : List (ObjId × Obj) := []
  log : List Notif := []
  deriving DecidableEq, Repr

def State.get (st : State) (o : ObjId) : Obj :=
  (alookup st.objs o).getD {}

def State.set (st : State) (o : ObjId) (x : Obj) : State :=
  { st with objs := setAssoc st.objs o x }

def State.modifyObj (st : State) (o : ObjId) (g : Obj → Obj) : State :=
  st.set o (g (st.get o))

/-- ENotifer.notify: listeners are external observers, so the notification
is appended to the log in emission order. -/
def notify (st : State) (n : Notif) : State :=
  { st with log := st.log ++ [n] }

/-- owner._isset.add(feature). -/
def addIsset (st : State) (o : ObjId) (f : FeatId) : State :=
  st.modifyObj o (fun ob => { ob with isset := setAdd ob.isset f })

/-- Read of a single-valued slot; a slot never written reads as the lazily
created EValue's default (EValue.__init__, valuecontainer.py line 67). -/
def getSingle (m : Model) (st : State) (o : ObjId) (f : FeatId) : Value :=
  (alookup (st.get o).singleVals f).getD (m.feat f).defaultVal

def setSingle (st : State) (o : ObjId) (f : FeatId) (v : Value) : State :=
  st.modifyObj o (fun ob => { ob with singleVals := setAssoc ob.singleVals f v })

/-- Read of a many-valued slot; a collection never touched is empty. -/
def getMany (st : State) (o : ObjId) (f : FeatId) : List ObjId :=
  (alookup (st.get o).manyVals f).getD []

def setManyVal (st : State) (o : ObjId) (f : FeatId) (l : List ObjId) : State :=
  st.modifyObj o (fun ob => { ob with manyVals := setAssoc ob.manyVals f l })

def toOpt : Value → Option ObjId
  | .vnone => none
  | .vobj o => some o

/-- value._container = owner; value._containment_feature = feature. -/
def setContainerOf (st : State) (o : ObjId) (owner : ObjId) (f : FeatId) : State :=
  st.modifyObj o (fun ob => { ob with container := some owner, cfeature := some f })

/-- previous_value._container = None; previous_value._containment_feature = None. -/
def clearContainerOf (st : State) (o : ObjId) : State :=
  st.modifyObj o (fun ob => { ob with container := none, cfeature := none })

/-- obj._inverse_rels.add(couple). -/
def addInvRel (st : State) (o : ObjId) (c : ObjId × FeatId) : State :=
  st.modifyObj o (fun ob => { ob with invRels := setAdd ob.invRels c })

/-- obj._inverse_rels.remove(couple) on a couple known present; the fallible
call sites test membership first and return keyError on absence, matching
set.remove. -/
def eraseInvRel (st : State) (o : ObjId) (c : ObjId × FeatId) : State :=
  st.modifyObj o (fun ob => { ob with invRels := ob.invRels.erase c })

/-- The per-collection _orderedset_update flag (EAbstractSet.__init__, line
296, initialises it False); collection instances are keyed by owner and
feature, so the flag lives as the set of flagged features on the owner. -/
def setOsetUpdate (st : State) (o : ObjId) (f : FeatId) (b : Bool) : State :=
  st.modifyObj o (fun ob =>
    { ob with osetUpd := if b then setAdd ob.osetUpd f else ob.osetUpd.erase f })

/-- obj._inverse_rels = l (rebinding, used by proxy resolution). -/
def setInvRels (st : State) (o : ObjId) (l : List (ObjId × FeatId)) : State :=
  st.modifyObj o (fun ob => { ob with invRels := l })

/-- EcoreUtils.isinstance (valuecontainer.py lines 15-26): None always
passes, an unresolved EProxy always passes (without any resolver call: the
test reads only the resolved flag, which EProxy.__getattribute__ serves
without resolving), otherwise the class-membership test. -/
def ecore_isinstance (st : State) (v : Value) (t : TypeDesc) : Bool :=
  match v with
  | .vnone => true
  | .vobj o =>
    let ob := st.get o
    if ob.isProxy && !ob.resolved then true
    else t.accepts ob.cls

/-- PyEcoreValue.check (lines 44-46): BadValueError unless isinstance. -/
def check (m : Model) (st : State) (f : FeatId) (v : Value) : Option Err :=
  if ecore_isinstance st v (m.feat f).etype then none else some .badValue

/-- PyEcoreValue._update_container (lines 48-61).  Resources are not
modelled (value.eResource is None in every modelled state, so the
resource.remove branch never fires).  Note the source order: the new value's
back pointers are written first, then the previous value's are cleared. -/
def update_container (m : Model) (owner : ObjId) (f : FeatId)
    (value : Option ObjId) (previous : Option ObjId) (st : State) : State :=
  if (m.feat f).isRef = false then st
  else if (m.feat f).containment = false then st
  else
    let st1 :=
      match value with
      | some v => setContainerOf st v owner f
      | none => st
    match previous with
    | some p => clearContainerOf st1 p
    | none => st1

/-- Sequencing of embedded statements: a some error short-circuits, keeping
the state reached at the raise point. -/
def seqres (r : State × Option Err) (k : State → State × Option Err) : State × Option Err :=
  match r with
  | (st, none) => k st
  | (st, some e) => (st, some e)

/-- EValue._set (valuecontainer.py lines 72-89) specialised to
update_opposite=False: the form every nested, suppressed call takes; it
returns right after the container update, before the opposite/inverse
section. -/
def evalue_set_nop (m : Model) (owner : ObjId) (f : FeatId) (value : Value)
    (st : State) : State × Option Err :=
  match check m st f value with
  | some e => (st, some e)
  | none =>
    let previous := getSingle m st owner f
    let st1 := setSingle st owner f value
    let st2 := notify st1
      { target := owner, feature := f,
        kind := if value = .vnone then .unset else .set,
        old := .one previous, new := .one value }
    let st3 := addIsset st2 owner f
    if (m.feat f).isRef = false then (st3, none)
    else (update_container m owner f (toOpt value) (toOpt previous) st3, none)

/-- EList.append (lines 218-227) specialised to update_opposite=False. -/
def elist_append_nop (m : Model) (owner : ObjId) (f : FeatId) (value : ObjId)
    (st : State) : State × Option Err :=
  match check m st f (.vobj value) with
  | some e => (st, some e)
  | none =>
    let st1 := update_container m owner f (some value) none st
    let st2 := setManyVal st1 owner f (getMany st1 owner f ++ [value])
    let st3 := notify st2
      { target := owner, feature := f, kind := .add, new := .one (.vobj value) }
    (addIsset st3 owner f, none)

/-- EAbstractSet.add (lines 301-311) specialised to update_opposite=False;
the ADD notification is muted when the collection's _orderedset_update flag
is set in the current state (line 307), and the physical OrderedSet.add
keeps the element unique. -/
def eset_add_nop (m : Model) (owner : ObjId) (f : FeatId) (value : ObjId)
    (st : State) : State × Option Err :=
  match check m st f (.vobj value) with
  | some e => (st, some e)
  | none =>
    let st1 := update_container m owner f (some value) none st
    let st2 := setManyVal st1 owner f (setAdd (getMany st1 owner f) value)
    let st3 :=
      if f ∈ (st2.get owner).osetUpd then st2
      else notify st2
        { target := owner, feature := f, kind := .add, new := .one (.vobj value) }
    (addIsset st3 owner f, none)

/-- ECollection.remove (lines 166-173) specialised to update_opposite=False.
The physical super().remove raises on an absent element (ValueError for
list.remove, the set variant's own error, both under the valueError
constructor since nothing observes the distinction); the state at the raise
already carries the container update performed first. -/
def ecoll_remove_nop (m : Model) (owner : ObjId) (f : FeatId) (value : ObjId)
    (st : State) : State × Option Err :=
  let st1 := update_container m owner f none (some value) st
  if value ∈ getMany st1 owner f then
    (notify (setManyVal st1 owner f ((getMany st1 owner f).erase value))
      { target := owner, feature := f, kind := .remove, old := .one (.vobj value) }, none)
  else (st1, some .valueError)

/-- Dispatch of a suppressed append over the concrete collection class
chosen by ECollection.create (lines 124-135): a derived collection refuses
every mutation, unique collections (EOrderedSet/ESet) add, and the
non-unique ones (EList/EBag, behaviourally identical) append. -/
def ecoll_append_nop (m : Model) (owner : ObjId) (f : FeatId) (value : ObjId)
    (st : State) : State × Option Err :=
  if (m.feat f).derived then (st, some .notPermitted)
  else if (m.feat f).unique then eset_add_nop m owner f value st
  else elist_append_nop m owner f value st

/-- ECollection._update_opposite (lines 143-164).  Parameter names follow
the source: callers pass the element as owner and the collection's owner as
new_value.  With no declared opposite the (new_value, feature) couple is
erased from owner's inverse relations when remove is set and the couple is
present, and added otherwise (the source's else branch adds even on a
remove of an absent couple). -/
def ecoll_update_opposite (m : Model) (f : FeatId) (owner : ObjId)
    (new_value : ObjId) (remove : Bool) (st : State) : State × Option Err :=
  if (m.feat f).isRef = false then (st, none)
  else
    match (m.feat f).eOpposite with
    | none =>
      let couple := (new_value, f)
      if remove && decide (couple ∈ (st.get owner).invRels) then
        (eraseInvRel st owner couple, none)
      else
        (addInvRel st owner couple, none)
    | some opp =>
      if (m.feat opp).many && !remove then
        ecoll_append_nop m owner opp new_value st
      else if (m.feat opp).many && remove then
        ecoll_remove_nop m owner opp new_value st
      else
        evalue_set_nop m owner opp (if remove then Value.vnone else Value.vobj new_value) st

/-- CPython recursion headroom for the descriptor-mediated unset cascade of
EValue._set; exhausting it models the RecursionError a too-deep chain would
raise (each cascade level rewrites a previously non-None single-valued slot
to None before recursing and stops on a None slot, so real graphs terminate
far below any such limit). -/
def python_stack_limit : Nat := 1000

/-- EValue._set (lines 72-120), fuel-indexed by the remaining recursion
headroom.  Nested collection calls carry update_opposite=False (the
one-level cycle guard) and go through the specialised _nop definitions, and
line 119 reaches the new target's EValue directly through value.__dict__,
again with update_opposite=False.  But in the unset branch with a
single-valued opposite, line 112's
object.__setattr__(previous_value, opposite_name, None) invokes the data
descriptor EStructuralFeature.__set__ (ecore.py lines 572-587) — only an
overridden __setattr__ is bypassed, not descriptors — which re-enters the
old target's EValue._set(None) with the default update_opposite=True: the
recursive call below, consuming one unit of fuel per nesting level.  The
inverse-relation set.remove calls (lines 96 and 99) raise KeyError on an
absent couple and are modelled so, with the state reached at the raise. -/
def evalue_set_rec : Nat → Model → ObjId → FeatId → Value → Bool → State →
    State × Option Err
  | 0, _, _, _, _, _, st => (st, some .recursionError)
  | fuel + 1, m, owner, f, value, update_opposite, st =>
    match check m st f value with
    | some e => (st, some e)
    | none =>
      let previous := getSingle m st owner f
      let st1 := setSingle st owner f value
      let st2 := notify st1
        { target := owner, feature := f,
          kind := if value = .vnone then .unset else .set,
          old := .one previous, new := .one value }
      let st3 := addIsset st2 owner f
      if (m.feat f).isRef = false then (st3, none)
      else
        let st4 := update_container m owner f (toOpt value) (toOpt previous) st3
        if update_opposite = false then (st4, none)
        else
          match (m.feat f).eOpposite with
          | none =>
            let couple := (owner, f)
            match value, previous with
            | .vobj v, .vobj p =>
              if couple ∈ (st4.get p).invRels then
                (addInvRel (eraseInvRel st4 p couple) v couple, none)
              else (st4, some .keyError)
            | .vobj v, .vnone => (addInvRel st4 v couple, none)
            | .vnone, .vobj p =>
              if couple ∈ (st4.get p).invRels then (eraseInvRel st4 p couple, none)
              else (st4, some .keyError)
            | .vnone, .vnone => (st4, none)
          | some opp =>
            match value with
            | .vnone =>
              match previous with
              | .vnone => (st4, none)
              | .vobj p =>
                if (m.feat opp).many then ecoll_remove_nop m p opp owner st4
                else evalue_set_rec fuel m p opp .vnone true st4
            | .vobj v =>
              if (m.feat opp).many then ecoll_append_nop m v opp owner st4
              else evalue_set_nop m v opp (.vobj owner) st4

/-- EValue._set (lines 72-120) entered with the standard interpreter
recursion headroom. -/
def evalue_set (m : Model) (owner : ObjId) (f : FeatId) (value : Value)
    (update_opposite : Bool) (st : State) : State × Option Err :=
  evalue_set_rec python_stack_limit m owner f value update_opposite st

/-- EList.append (lines 218-227) with the update_opposite flag. -/
def elist_append (m : Model) (owner : ObjId) (f : FeatId) (value : ObjId)
    (update_opposite : Bool) (st : State) : State × Option Err :=
  match check m st f (.vobj value) with
  | some e => (st, some e)
  | none =>
    let st1 := update_container m owner f (some value) none st
    seqres (if update_opposite then ecoll_update_opposite m f value owner false st1
            else (st1, none))
      (fun st2 =>
        let st3 := setManyVal st2 owner f (getMany st2 owner f ++ [value])
        let st4 := notify st3
          { target := owner, feature := f, kind := .add, new := .one (.vobj value) }
        (addIsset st4 owner f, none))

/-- EAbstractSet.add (lines 301-311) with the update_opposite flag; also the
body of EAbstractSet.append (lines 298-299), which delegates to add.  The
ADD notification is muted exactly when the collection's _orderedset_update
flag is set in the state at notification time (line 307). -/
def eset_add (m : Model) (owner : ObjId) (f : FeatId) (value : ObjId)
    (update_opposite : Bool) (st : State) : State × Option Err :=
  match check m st f (.vobj value) with
  | some e => (st, some e)
  | none =>
    let st1 := update_container m owner f (some value) none st
    seqres (if update_opposite then ecoll_update_opposite m f value owner false st1
            else (st1, none))
      (fun st2 =>
        let st3 := setManyVal st2 owner f (setAdd (getMany st2 owner f) value)
        let st4 :=
          if f ∈ (st3.get owner).osetUpd then st3
          else notify st3
            { target := owner, feature := f, kind := .add, new := .one (.vobj value) }
        (addIsset st4 owner f, none))

/-- ECollection.remove (lines 166-173) with the update_opposite flag; the
physical super().remove raises on an absent element, returned as valueError
with the bookkeeping already applied before it. -/
def ecoll_remove (m : Model) (owner : ObjId) (f : FeatId) (value : ObjId)
    (update_opposite : Bool) (st : State) : State × Option Err :=
  let st1 := update_container m owner f none (some value) st
  seqres (if update_opposite then ecoll_update_opposite m f value owner true st1
          else (st1, none))
    (fun st2 =>
      if value ∈ getMany st2 owner f then
        (notify (setManyVal st2 owner f ((getMany st2 owner f).erase value))
          { target := owner, feature := f, kind := .remove, old := .one (.vobj value) }, none)
      else (st2, some .valueError))

/-- Check loop opening EList.extend (lines 230-231) and EAbstractSet.update
(lines 317-318): every element is checked before any mutation. -/
def checkAll (m : Model) (st : State) (f : FeatId) : List ObjId → Option Err
  | [] => none
  | x :: xs =>
    match check m st f (.vobj x) with
    | some e => some e
    | none => checkAll m st f xs

/-- Per-element bookkeeping loop shared by EList.extend (lines 232-234) and
EAbstractSet.update (lines 319-321): container update then opposite update,
element by element. -/
def bulk_book_loop (m : Model) (owner : ObjId) (f : FeatId) :
    List ObjId → State → State × Option Err
  | [], st => (st, none)
  | x :: xs, st =>
    let st1 := update_container m owner f (some x) none st
    seqres (ecoll_update_opposite m f x owner false st1) (bulk_book_loop m owner f xs)

/-- EList.extend (lines 229-239). -/
def elist_extend (m : Model) (owner : ObjId) (f : FeatId) (sublist : List ObjId)
    (st : State) : State × Option Err :=
  match checkAll m st f sublist with
  | some e => (st, some e)
  | none =>
    seqres (bulk_book_loop m owner f sublist st) (fun st1 =>
      let st2 := setManyVal st1 owner f (getMany st1 owner f ++ sublist)
      let st3 := notify st2
        { target := owner, feature := f, kind := .addMany, new := .many sublist }
      (addIsset st3 owner f, none))

/-- Modelled from the spec: the physical super-call of EAbstractSet.update
(line 322) dispatches to the patched ordered_set.OrderedSet.update, whose
module ordered_set_patch is not under src/.  Per the spec's batching
contract and suppression-flag description it inserts the elements one by one
through self.add, which dynamically re-enters EAbstractSet.add with
update_opposite=True while the _orderedset_update flag EOrderedSet.update
left set in the state suppresses the per-element ADD notifications. -/
def oset_phys_update_loop (m : Model) (owner : ObjId) (f : FeatId) :
    List ObjId → State → State × Option Err
  | [], st => (st, none)
  | x :: xs, st =>
    seqres (eset_add m owner f x true st) (oset_phys_update_loop m owner f xs)

/-- EOrderedSet.update (lines 334-337) wrapping EAbstractSet.update (lines
316-326); EAbstractSet.extend (lines 313-314) delegates here.  The
_orderedset_update flag is set before the check loop and reset only after
the whole body has run: there is no try/finally, so any raise — including a
BadValueError from the check loop — returns with the flag still set, muting
every later ADD notification on this collection. -/
def eset_update (m : Model) (owner : ObjId) (f : FeatId) (others : List ObjId)
    (st : State) : State × Option Err :=
  let st0 := setOsetUpdate st owner f true
  match checkAll m st0 f others with
  | some e => (st0, some e)
  | none =>
    seqres (bulk_book_loop m owner f others st0) (fun st1 =>
      seqres (oset_phys_update_loop m owner f others st1) (fun st2 =>
        let st3 := notify st2
          { target := owner, feature := f, kind := .addMany, new := .many others }
        let st4 := addIsset st3 owner f
        (setOsetUpdate st4 owner f false, none)))

/-- Removal loop of ECollection.clear. -/
def clear_loop (m : Model) (owner : ObjId) (f : FeatId) :
    List ObjId → State → State × Option Err
  | [], st => (st, none)
  | x :: xs, st => seqres (ecoll_remove m owner f x true st) (clear_loop m owner f xs)

/-- ECollection.clear (lines 197-198): one single-element remove per element
of set(self); the unspecified Python set iteration order is modelled with
List.dedup over the current contents, computed once before the removals. -/
def ecoll_clear (m : Model) (owner : ObjId) (f : FeatId) (st : State) :
    State × Option Err :=
  clear_loop m owner f (getMany st owner f).dedup st

/-- Reflective description of an EClass for instantiation: its name, the
abstract flag and the class id instances carry. -/
structure EClassI where
  cname : String := ""
  abstract : Bool := false
  clsId : Nat := 0
  deriving DecidableEq, Repr

/-- Instantiation outcome errors; abstractError models the TypeError raised
by the abstract guard, carrying the class name from the message. -/
inductive InstErr where
  | abstractError (cname : String)
  deriving DecidableEq, Repr

/-- EClass.__call__ (ecore.py lines 680-684): an abstract EClass refuses
instantiation with an error naming the class and changes nothing; otherwise
python_class constructs a fresh instance whose fields EObject.__new__
initialises (kwargs of the generated new_init are not modelled), registered
in the graph under newId. -/
def eclass_call (c : EClassI) (st : State) (newId : ObjId) :
    State × Option InstErr × Option ObjId :=
  if c.abstract then (st, some (.abstractError c.cname), none)
  else (st.set newId { cls := c.clsId }, none, some newId)

/-- MetaEClass.__call__ (ecore.py lines 798-802): the same abstract guard
for statically promoted classes, reading cls.eClass.abstract before
delegating to type.__call__. -/
def meta_eclass_call (c : EClassI) (st : State) (newId : ObjId) :
    State × Option InstErr × Option ObjId :=
  if c.abstract then (st, some (.abstractError c.cname), none)
  else (st.set newId { cls := c.clsId }, none, some newId)

/-- Named structural feature as seen by the lookup walk; tag distinguishes
distinct declarations sharing a name. -/
structure EFeat where
  fname : String
  tag : Nat := 0
  deriving DecidableEq, Repr

/-- Named operation as seen by the lookup walk. -/
structure EOp where
  oname : String
  tag : Nat := 0
  deriving DecidableEq, Repr

/-- Reflective EClass for the lookup claims: own structural features and
operations in declaration order plus the ordered supertype list.  The
supertype closure is acyclic by model invariant, so a tree-shaped inductive
is a faithful carrier of the recursive generator walk. -/
inductive EClassR where
  | mk (own : List EFeat) (ops : List EOp) (sups : List EClassR)

mutual
/-- EClass._eAllStructuralFeatures_gen (ecore.py lines 755-760): own
features first in declaration order, then each supertype's full walk, depth
first in supertype declaration order. -/
def eAllStructuralFeatures : EClassR → List EFeat
  | .mk own _ sups => own ++ eAllStructuralFeaturesL sups
/-- The for-loop over eSuperTypes inside _eAllStructuralFeatures_gen. -/
def eAllStructuralFeaturesL : List EClassR → List EFeat
  | [] => []
  | c :: cs => eAllStructuralFeatures c ++ eAllStructuralFeaturesL cs
end

mutual
/-- EClass._eAllOperations_gen (ecore.py lines 773-778). -/
def eAllOperations : EClassR → List EOp
  | .mk _ ops sups => ops ++ eAllOperationsL sups
/-- The for-loop over eSuperTypes inside _eAllOperations_gen. -/
def eAllOperationsL : List EClassR → List EOp
  | [] => []
  | c :: cs => eAllOperations c ++ eAllOperationsL cs
end

/-- EClass.findEStructuralFeature (ecore.py lines 739-742): first name match
of the generator walk, none when the generator is exhausted. -/
def findEStructuralFeature (c : EClassR) (n : String) : Option EFeat :=
  (eAllStructuralFeatures c).find? (fun ft => ft.fname == n)

/-- EClass.findEOperation (ecore.py lines 783-785). -/
def findEOperation (c : EClassR) (n : String) : Option EOp :=
  (eAllOperations c).find? (fun op => op.oname == n)

/-- First some of a list of options: the value of a next(...) search over
concatenated sub-generators. -/
def firstSome {α : Type} : List (Option α) → Option α
  | [] => none
  | some a :: _ => some a
  | none :: os => firstSome os

/-- Runtime state of an EProxy: the resolved flag, the bound target and the
proxy's own accumulated _inverse_rels set (EProxy.__init__, ecore.py lines
833-839). -/
structure Proxy where
  resolved : Bool := false
  wrapped : Option ObjId := none
  proxyRels : List (ObjId × FeatId) := []
  deriving DecidableEq, Repr

/-- EProxy.force_resolve (ecore.py lines 841-853).  The external resolver
(decoders.resolve) is an oracle: some target id, or none when it raises a
resolution error.  The returned Nat counts resolver invocations made by the
call.  On success the target's inverse-relation set is updated with the
proxy's (set.update) and the proxy then aliases the merged set; the aliasing
is modelled by storing the merged list on both sides.  Targets without an
_inverse_rels attribute (wrapped as decoded.eClass) are outside the modelled
states, where every resolved id is an object in the graph. -/
def force_resolve (p : Proxy) (resolver : Option ObjId) (st : State) :
    Proxy × State × Nat × Option Err :=
  if p.resolved then (p, st, 0, none)
  else
    match resolver with
    | none => (p, st, 1, some .resolutionError)
    | some tgt =>
      let merged := listUnion (st.get tgt).invRels p.proxyRels
      let st1 := setInvRels st tgt merged
      ({ p with wrapped := some tgt, resolved := true, proxyRels := merged }, st1, 1, none)

/-- EProxy.__getattribute__ (ecore.py lines 884-902) for a plain attribute
name outside the special-cased set: a resolved proxy forwards to its
wrapped target; an unresolved one runs the same resolution block as
force_resolve first — on every access, so a failed resolution is retried —
and then forwards. -/
def proxy_getattr (p : Proxy) (resolver : Option ObjId) (st : State) :
    Proxy × State × Nat × Option Err × Option ObjId :=
  if p.resolved then (p, st, 0, none, p.wrapped)
  else
    match resolver with
    | none => (p, st, 1, some .resolutionError, none)
    | some tgt =>
      let merged := listUnion (st.get tgt).invRels p.proxyRels
      let st1 := setInvRels st tgt merged
      ({ p with wrapped := some tgt, resolved := true, proxyRels := merged },
        st1, 1, none, some tgt)

/-- Fixture: two mutually opposite single-valued references, features 0 and
1, with types accepting every object. -/
def oppModel : Model :=
  { feats := [(0, { isRef := true, eOpposite := some 1 }),
              (1, { isRef := true, eOpposite := some 0 })] }

/-- Fixture: feature 0 whose declared type accepts no modelled class. -/
def strictModel : Model :=
  { feats := [(0, { isRef := true, etype := { acceptAll := false } })] }

/-- Fixture: a containment list reference, feature 0. -/
def contModel : Model :=
  { feats := [(0, { isRef := true, containment := true, many := true, unique := false })] }

/-- Fixture: a many-valued reference (feature 0) whose opposite is the
single-valued reference feature 1. -/
def batchModel : Model :=
  { feats := [(0, { isRef := true, many := true, unique := false, eOpposite := some 1 }),
              (1, { isRef := true, eOpposite := some 0 })] }

/-- Fixture: a plain many-valued attribute-like feature, no reference
semantics. -/
def attrListModel : Model := { feats := [(0, { many := true, unique := false })] }

/-- Fixture: a list collection on object 1 holding duplicate contents. -/
def dupState : State := { objs := [(1, { manyVals := [(0, [5, 5])] })] }

/-- Fixture: feature 0 accepts no class at all. -/
def proxyCheckModel : Model := { feats := [(0, { etype := { acceptAll := false } })] }

/-- Fixture: object 2 is an unresolved proxy of class 9. -/
def proxyCheckState : State :=
  { objs := [(2, { cls := 9, isProxy := true, resolved := false })] }

/-- Fixture: an unresolved proxy carrying one accumulated inverse relation. -/
def unresolvedProxy : Proxy := { proxyRels := [(7, 3)] }

/-- Fixture: a graph whose object 4 already records one inverse relation. -/
def tgtState : State := { objs := [(4, { invRels := [(8, 2)] })] }

/-- Fixture: an abstract class description. -/
def absClass : EClassI := { cname := "AbstractThing", abstract := true, clsId := 3 }

/-- Fixture: a list collection on object 1 holding two distinct elements. -/
def distinctState : State := { objs := [(1, { manyVals := [(0, [5, 6])] })] }

/-- Fixture: a unique (set) collection feature 0 accepting only class 1. -/
def c2setModel : Model :=
  { feats := [(0, { many := true, unique := true,
                    etype := { acceptAll := false, classes := [1] } })] }

/-- Fixture: object 5 of the accepted class 1, object 6 of the rejected
class 2. -/
def c2setState : State := { objs := [(5, { cls := 1 }), (6, { cls := 2 })] }

/-- State-delta envelope of the unset cascade of EValue._set(None): every
single-valued slot is either untouched or holds None, the explicitly-set
marks only grow, and the notification log only gains entries. -/
def unsetDelta (m : Model) (st st' : State) : Prop :=
  (∀ o g, getSingle m st' o g = getSingle m st o g ∨ getSingle m st' o g = .vnone) ∧
  (∀ o g, g ∈ (st.get o).isset → g ∈ (st'.get o).isset) ∧
  (∃ rest, st'.log = st.log ++ rest)

theorem alookup_setAssoc_self {α : Type} (l : List (Nat × α)) (k : Nat) (v : α) :
    alookup (setAssoc l k v) k = some v := by
  induction l with
  | nil => simp [setAssoc, alookup]
  | cons h t ih =>
    obtain ⟨k', v'⟩ := h
    by_cases hk : k' = k <;> simp [setAssoc, alookup, hk, ih]

theorem alookup_setAssoc_ne {α : Type} (l : List (Nat × α)) (k k' : Nat) (v : α)
    (h : k' ≠ k) : alookup (setAssoc l k v) k' = alookup l k' := by
  induction l with
  | nil => simp [setAssoc, alookup, Ne.symm h]
  | cons hd t ih =>
    obtain ⟨k0, v0⟩ := hd
    by_cases hk : k0 = k
    · subst hk
      simp [setAssoc, alookup, Ne.symm h]
    · simp [setAssoc, alookup, hk, ih]

theorem State.get_set_self (st : State) (o : ObjId) (x : Obj) :
    (st.set o x).get o = x := by
  simp [State.get, State.set, alookup_setAssoc_self]

theorem State.get_set_ne (st : State) (o o' : ObjId) (x : Obj) (h : o' ≠ o) :
    (st.set o x).get o' = st.get o' := by
  simp [State.get, State.set, alookup_setAssoc_ne _ _ _ _ h]

theorem State.get_modify_self (st : State) (o : ObjId) (g : Obj → Obj) :
    (st.modifyObj o g).get o = g (st.get o) :=
  State.get_set_self st o _

theorem State.get_modify_ne (st : State) (o o' : ObjId) (g : Obj → Obj) (h : o' ≠ o) :
    (st.modifyObj o g).get o' = st.get o' :=
  State.get_set_ne st o o' _ h

theorem State.log_set (st : State) (o : ObjId) (x : Obj) : (st.set o x).log = st.log := rfl

theorem State.log_modify (st : State) (o : ObjId) (g : Obj → Obj) :
    (st.modifyObj o g).log = st.log := rfl

theorem State.get_notify (st : State) (n : Notif) (o : ObjId) :
    (notify st n).get o = st.get o := rfl

theorem log_notify (st : State) (n : Notif) : (notify st n).log = st.log ++ [n] := rfl

theorem mem_setAdd {α : Type} [DecidableEq α] (l : List α) (x y : α) :
    y ∈ setAdd l x ↔ y ∈ l ∨ y = x := by
  unfold setAdd
  by_cases h : x ∈ l
  · simp only [h, if_true]
    constructor
    · exact Or.inl
    · rintro (hy | rfl) <;> assumption
  · simp [h]

theorem mem_setAdd_self {α : Type} [DecidableEq α] (l : List α) (x : α) :
    x ∈ setAdd l x := (mem_setAdd l x x).mpr (Or.inr rfl)

theorem mem_listUnion {α : Type} [DecidableEq α] (l1 l2 : List α) (y : α) :
    y ∈ listUnion l1 l2 ↔ y ∈ l1 ∨ y ∈ l2 := by
  induction l2 generalizing l1 with
  | nil => simp [listUnion]
  | cons x t ih =>
    show y ∈ listUnion (setAdd l1 x) t ↔ _
    rw [ih, mem_setAdd]
    simp only [List.mem_cons]
    tauto

theorem getSingle_modify (m : Model) (st : State) (o : ObjId) (g : Obj → Obj)
    (o' : ObjId) (f : FeatId) (hg : ∀ ob, (g ob).singleVals = ob.singleVals) :
    getSingle m (st.modifyObj o g) o' f = getSingle m st o' f := by
  unfold getSingle
  by_cases h : o' = o
  · subst h; rw [State.get_modify_self, hg]
  · rw [State.get_modify_ne _ _ _ _ h]

theorem getMany_modify (st : State) (o : ObjId) (g : Obj → Obj)
    (o' : ObjId) (f : FeatId) (hg : ∀ ob, (g ob).manyVals = ob.manyVals) :
    getMany (st.modifyObj o g) o' f = getMany st o' f := by
  unfold getMany
  by_cases h : o' = o
  · subst h; rw [State.get_modify_self, hg]
  · rw [State.get_modify_ne _ _ _ _ h]

theorem isset_modify (st : State) (o : ObjId) (g : Obj → Obj)
    (o' : ObjId) (hg : ∀ ob, (g ob).isset = ob.isset) :
    ((st.modifyObj o g).get o').isset = (st.get o').isset := by
  by_cases h : o' = o
  · subst h; rw [State.get_modify_self, hg]
  · rw [State.get_modify_ne _ _ _ _ h]

theorem invRels_modify (st : State) (o : ObjId) (g : Obj → Obj)
    (o' : ObjId) (hg : ∀ ob, (g ob).invRels = ob.invRels) :
    ((st.modifyObj o g).get o').invRels = (st.get o').invRels := by
  by_cases h : o' = o
  · subst h; rw [State.get_modify_self, hg]
  · rw [State.get_modify_ne _ _ _ _ h]

theorem container_modify (st : State) (o : ObjId) (g : Obj → Obj)
    (o' : ObjId)
    (hg : ∀ ob, (g ob).container = ob.container ∧ (g ob).cfeature = ob.cfeature) :
    ((st.modifyObj o g).get o').container = (st.get o').container ∧
      ((st.modifyObj o g).get o').cfeature = (st.get o').cfeature := by
  by_cases h : o' = o
  · subst h; rw [State.get_modify_self]; exact hg _
  · rw [State.get_modify_ne _ _ _ _ h]; exact ⟨rfl, rfl⟩

theorem check_modify (m : Model) (st : State) (o : ObjId) (g : Obj → Obj)
    (f : FeatId) (v : Value)
    (hg : ∀ ob, (g ob).cls = ob.cls ∧ (g ob).isProxy = ob.isProxy ∧
      (g ob).resolved = ob.resolved) :
    check m (st.modifyObj o g) f v = check m st f v := by
  cases v with
  | vnone => rfl
  | vobj w =>
    simp only [check, ecore_isinstance]
    by_cases h : w = o
    · subst h
      simp only [State.get_modify_self, (hg (st.get w)).1, (hg (st.get w)).2.1,
        (hg (st.get w)).2.2]
    · simp only [State.get_modify_ne _ _ _ _ h]

theorem getSingle_setSingle (m : Model) (st : State) (o o' : ObjId) (f f' : FeatId)
    (v : Value) :
    getSingle m (setSingle st o f v) o' f' =
      if o' = o ∧ f' = f then v else getSingle m st o' f' := by
  unfold getSingle setSingle
  by_cases h : o' = o
  · subst h
    rw [State.get_modify_self]
    by_cases hf : f' = f
    · subst hf; simp [alookup_setAssoc_self]
    · simp [hf, alookup_setAssoc_ne _ _ _ _ hf]
  · rw [State.get_modify_ne _ _ _ _ h]
    simp [h]

theorem getMany_setManyVal (st : State) (o o' : ObjId) (f f' : FeatId)
    (l : List ObjId) :
    getMany (setManyVal st o f l) o' f' =
      if o' = o ∧ f' = f then l else getMany st o' f' := by
  unfold getMany setManyVal
  by_cases h : o' = o
  · subst h
    rw [State.get_modify_self]
    by_cases hf : f' = f
    · subst hf; simp [alookup_setAssoc_self]
    · simp [hf, alookup_setAssoc_ne _ _ _ _ hf]
  · rw [State.get_modify_ne _ _ _ _ h]
    simp [h]

theorem getSingle_setManyVal (m : Model) (st : State) (o o' : ObjId) (f f' : FeatId)
    (l : List ObjId) :
    getSingle m (setManyVal st o f l) o' f' = getSingle m st o' f' :=
  getSingle_modify m st o _ o' f' (fun _ => rfl)

theorem getMany_setSingle (st : State) (o o' : ObjId) (f f' : FeatId) (v : Value) :
    getMany (setSingle st o f v) o' f' = getMany st o' f' :=
  getMany_modify st o _ o' f' (fun _ => rfl)

theorem getSingle_notify (m : Model) (st : State) (n : Notif) (o : ObjId) (f : FeatId) :
    getSingle m (notify st n) o f = getSingle m st o f := rfl

theorem getMany_notify (st : State) (n : Notif) (o : ObjId) (f : FeatId) :
    getMany (notify st n) o f = getMany st o f := rfl

theorem check_notify (m : Model) (st : State) (n : Notif) (f : FeatId) (v : Value) :
    check m (notify st n) f v = check m st f v := rfl

theorem getSingle_addIsset (m : Model) (st : State) (o o' : ObjId) (f f' : FeatId) :
    getSingle m (addIsset st o f) o' f' = getSingle m st o' f' :=
  getSingle_modify m st o _ o' f' (fun _ => rfl)

theorem getMany_addIsset (st : State) (o o' : ObjId) (f f' : FeatId) :
    getMany (addIsset st o f) o' f' = getMany st o' f' :=
  getMany_modify st o _ o' f' (fun _ => rfl)

theorem check_addIsset (m : Model) (st : State) (o : ObjId) (f f' : FeatId) (v : Value) :
    check m (addIsset st o f) f' v = check m st f' v :=
  check_modify m st o _ f' v (fun _ => ⟨rfl, rfl, rfl⟩)

theorem check_setSingle (m : Model) (st : State) (o : ObjId) (f f' : FeatId)
    (w : Value) (v : Value) :
    check m (setSingle st o f w) f' v = check m st f' v :=
  check_modify m st o _ f' v (fun _ => ⟨rfl, rfl, rfl⟩)

theorem check_setManyVal (m : Model) (st : State) (o : ObjId) (f f' : FeatId)
    (l : List ObjId) (v : Value) :
    check m (setManyVal st o f l) f' v = check m st f' v :=
  check_modify m st o _ f' v (fun _ => ⟨rfl, rfl, rfl⟩)

theorem log_setSingle (st : State) (o : ObjId) (f : FeatId) (v : Value) :
    (setSingle st o f v).log = st.log := rfl

theorem log_setManyVal (st : State) (o : ObjId) (f : FeatId) (l : List ObjId) :
    (setManyVal st o f l).log = st.log := rfl

theorem log_addIsset (st : State) (o : ObjId) (f : FeatId) :
    (addIsset st o f).log = st.log := rfl

theorem log_setContainerOf (st : State) (o ow : ObjId) (f : FeatId) :
    (setContainerOf st o ow f).log = st.log := rfl

theorem log_clearContainerOf (st : State) (o : ObjId) :
    (clearContainerOf st o).log = st.log := rfl

theorem log_addInvRel (st : State) (o : ObjId) (c : ObjId × FeatId) :
    (addInvRel st o c).log = st.log := rfl

theorem log_eraseInvRel (st : State) (o : ObjId) (c : ObjId × FeatId) :
    (eraseInvRel st o c).log = st.log := rfl

theorem getSingle_setContainerOf (m : Model) (st : State) (o ow o' : ObjId)
    (f f' : FeatId) :
    getSingle m (setContainerOf st o ow f) o' f' = getSingle m st o' f' :=
  getSingle_modify m st o _ o' f' (fun _ => rfl)

theorem getSingle_clearContainerOf (m : Model) (st : State) (o o' : ObjId) (f' : FeatId) :
    getSingle m (clearContainerOf st o) o' f' = getSingle m st o' f' :=
  getSingle_modify m st o _ o' f' (fun _ => rfl)

theorem getMany_setContainerOf (st : State) (o ow o' : ObjId) (f f' : FeatId) :
    getMany (setContainerOf st o ow f) o' f' = getMany st o' f' :=
  getMany_modify st o _ o' f' (fun _ => rfl)

theorem getMany_clearContainerOf (st : State) (o o' : ObjId) (f' : FeatId) :
    getMany (clearContainerOf st o) o' f' = getMany st o' f' :=
  getMany_modify st o _ o' f' (fun _ => rfl)

theorem getSingle_addInvRel (m : Model) (st : State) (o o' : ObjId)
    (c : ObjId × FeatId) (f' : FeatId) :
    getSingle m (addInvRel st o c) o' f' = getSingle m st o' f' :=
  getSingle_modify m st o _ o' f' (fun _ => rfl)

theorem getSingle_eraseInvRel (m : Model) (st : State) (o o' : ObjId)
    (c : ObjId × FeatId) (f' : FeatId) :
    getSingle m (eraseInvRel st o c) o' f' = getSingle m st o' f' :=
  getSingle_modify m st o _ o' f' (fun _ => rfl)

theorem getMany_addInvRel (st : State) (o o' : ObjId) (c : ObjId × FeatId) (f' : FeatId) :
    getMany (addInvRel st o c) o' f' = getMany st o' f' :=
  getMany_modify st o _ o' f' (fun _ => rfl)

theorem getMany_eraseInvRel (st : State) (o o' : ObjId) (c : ObjId × FeatId) (f' : FeatId) :
    getMany (eraseInvRel st o c) o' f' = getMany st o' f' :=
  getMany_modify st o _ o' f' (fun _ => rfl)

theorem check_setContainerOf (m : Model) (st : State) (o ow : ObjId) (f f' : FeatId)
    (v : Value) :
    check m (setContainerOf st o ow f) f' v = check m st f' v :=
  check_modify m st o _ f' v (fun _ => ⟨rfl, rfl, rfl⟩)

theorem check_clearContainerOf (m : Model) (st : State) (o : ObjId) (f' : FeatId)
    (v : Value) :
    check m (clearContainerOf st o) f' v = check m st f' v :=
  check_modify m st o _ f' v (fun _ => ⟨rfl, rfl, rfl⟩)

theorem check_addInvRel (m : Model) (st : State) (o : ObjId) (c : ObjId × FeatId)
    (f' : FeatId) (v : Value) :
    check m (addInvRel st o c) f' v = check m st f' v :=
  check_modify m st o _ f' v (fun _ => ⟨rfl, rfl, rfl⟩)

theorem check_eraseInvRel (m : Model) (st : State) (o : ObjId) (c : ObjId × FeatId)
    (f' : FeatId) (v : Value) :
    check m (eraseInvRel st o c) f' v = check m st f' v :=
  check_modify m st o _ f' v (fun _ => ⟨rfl, rfl, rfl⟩)

theorem isset_setSingle (st : State) (o o' : ObjId) (f : FeatId) (v : Value) :
    ((setSingle st o f v).get o').isset = (st.get o').isset :=
  isset_modify st o _ o' (fun _ => rfl)

theorem isset_setManyVal (st : State) (o o' : ObjId) (f : FeatId) (l : List ObjId) :
    ((setManyVal st o f l).get o').isset = (st.get o').isset :=
  isset_modify st o _ o' (fun _ => rfl)

theorem isset_notify (st : State) (n : Notif) (o' : ObjId) :
    ((notify st n).get o').isset = (st.get o').isset := rfl

theorem isset_setContainerOf (st : State) (o ow o' : ObjId) (f : FeatId) :
    ((setContainerOf st o ow f).get o').isset = (st.get o').isset :=
  isset_modify st o _ o' (fun _ => rfl)

theorem isset_clearContainerOf (st : State) (o o' : ObjId) :
    ((clearContainerOf st o).get o').isset = (st.get o').isset :=
  isset_modify st o _ o' (fun _ => rfl)

theorem isset_addInvRel (st : State) (o o' : ObjId) (c : ObjId × FeatId) :
    ((addInvRel st o c).get o').isset = (st.get o').isset :=
  isset_modify st o _ o' (fun _ => rfl)

theorem isset_eraseInvRel (st : State) (o o' : ObjId) (c : ObjId × FeatId) :
    ((eraseInvRel st o c).get o').isset = (st.get o').isset :=
  isset_modify st o _ o' (fun _ => rfl)

theorem isset_addIsset_self (st : State) (o : ObjId) (f : FeatId) :
    ((addIsset st o f).get o).isset = setAdd (st.get o).isset f := by
  unfold addIsset
  rw [State.get_modify_self]

theorem update_container_not_ref (m : Model) (o : ObjId) (f : FeatId)
    (vv pv : Option ObjId) (st : State) (h : (m.feat f).isRef = false) :
    update_container m o f vv pv st = st := by
  unfold update_container
  simp [h]

theorem update_container_not_containment (m : Model) (o : ObjId) (f : FeatId)
    (vv pv : Option ObjId) (st : State) (h : (m.feat f).containment = false) :
    update_container m o f vv pv st = st := by
  unfold update_container
  by_cases h1 : (m.feat f).isRef = false <;> simp [h1, h]

theorem update_container_some_none (m : Model) (o : ObjId) (f : FeatId)
    (v : ObjId) (st : State) (hr : (m.feat f).isRef = true)
    (hc : (m.feat f).containment = true) :
    update_container m o f (some v) none st = setContainerOf st v o f := by
  unfold update_container
  simp [hr, hc]

theorem update_container_none_some (m : Model) (o : ObjId) (f : FeatId)
    (p : ObjId) (st : State) (hr : (m.feat f).isRef = true)
    (hc : (m.feat f).containment = true) :
    update_container m o f none (some p) st = clearContainerOf st p := by
  unfold update_container
  simp [hr, hc]

theorem update_container_some_some (m : Model) (o : ObjId) (f : FeatId)
    (v p : ObjId) (st : State) (hr : (m.feat f).isRef = true)
    (hc : (m.feat f).containment = true) :
    update_container m o f (some v) (some p) st =
      clearContainerOf (setContainerOf st v o f) p := by
  unfold update_container
  simp [hr, hc]

theorem log_update_container (m : Model) (o : ObjId) (f : FeatId)
    (vv pv : Option ObjId) (st : State) :
    (update_container m o f vv pv st).log = st.log := by
  unfold update_container
  by_cases h1 : (m.feat f).isRef = false
  · simp [h1]
  · by_cases h2 : (m.feat f).containment = false
    · simp [h1, h2]
    · cases vv <;> cases pv <;> simp [h1, h2, log_setContainerOf, log_clearContainerOf]

theorem getSingle_update_container (m2 m : Model) (o : ObjId) (f : FeatId)
    (vv pv : Option ObjId) (st : State) (o' : ObjId) (f' : FeatId) :
    getSingle m2 (update_container m o f vv pv st) o' f' = getSingle m2 st o' f' := by
  unfold update_container
  by_cases h1 : (m.feat f).isRef = false
  · simp [h1]
  · by_cases h2 : (m.feat f).containment = false
    · simp [h1, h2]
    · cases vv <;> cases pv <;>
        simp [h1, h2, getSingle_setContainerOf, getSingle_clearContainerOf]

theorem getMany_update_container (m : Model) (o : ObjId) (f : FeatId)
    (vv pv : Option ObjId) (st : State) (o' : ObjId) (f' : FeatId) :
    getMany (update_container m o f vv pv st) o' f' = getMany st o' f' := by
  unfold update_container
  by_cases h1 : (m.feat f).isRef = false
  · simp [h1]
  · by_cases h2 : (m.feat f).containment = false
    · simp [h1, h2]
    · cases vv <;> cases pv <;>
        simp [h1, h2, getMany_setContainerOf, getMany_clearContainerOf]

theorem isset_update_container (m : Model) (o : ObjId) (f : FeatId)
    (vv pv : Option ObjId) (st : State) (o' : ObjId) :
    ((update_container m o f vv pv st).get o').isset = (st.get o').isset := by
  unfold update_container
  by_cases h1 : (m.feat f).isRef = false
  · simp [h1]
  · by_cases h2 : (m.feat f).containment = false
    · simp [h1, h2]
    · cases vv <;> cases pv <;>
        simp [h1, h2, isset_setContainerOf, isset_clearContainerOf]

theorem check_update_container (m2 m : Model) (o : ObjId) (f : FeatId)
    (vv pv : Option ObjId) (st : State) (f' : FeatId) (v : Value) :
    check m2 (update_container m o f vv pv st) f' v = check m2 st f' v := by
  unfold update_container
  by_cases h1 : (m.feat f).isRef = false
  · simp [h1]
  · by_cases h2 : (m.feat f).containment = false
    · simp [h1, h2]
    · cases vv <;> cases pv <;>
        simp [h1, h2, check_setContainerOf, check_clearContainerOf]

theorem invRels_setInvRels_self (st : State) (o : ObjId) (l : List (ObjId × FeatId)) :
    ((setInvRels st o l).get o).invRels = l := by
  unfold setInvRels
  rw [State.get_modify_self]

/-- C5: instantiating a Class whose abstract flag is true — through
EClass.__call__ or through MetaEClass.__call__ for a statically promoted
class — fails with the abstract-instantiation error naming the class,
constructs no instance and leaves the object graph untouched. -/
theorem C5_abstract_guard (c : EClassI) (st : State) (newId : ObjId)
    (h : c.abstract = true) :
    eclass_call c st newId = (st, some (.abstractError c.cname), none) ∧
    meta_eclass_call c st newId = (st, some (.abstractError c.cname), none) := by
  unfold eclass_call meta_eclass_call
  simp [h]

theorem C5_witness :
    eclass_call absClass {} 1 = ({}, some (.abstractError "AbstractThing"), none) ∧
    meta_eclass_call absClass {} 1 = ({}, some (.abstractError "AbstractThing"), none) :=
  C5_abstract_guard absClass {} 1 rfl

/-- C8: with a failing resolver, force_resolve makes exactly one resolver
call, surfaces the resolution error synchronously, and leaves the proxy and
graph unchanged — still unresolved with no bound target; a subsequent plain
attribute access through __getattribute__ on that same unchanged proxy calls
the resolver again (one more invocation): the failure is not cached. -/
theorem C8_failed_resolution_not_cached (p : Proxy) (st : State)
    (h : p.resolved = false) :
    force_resolve p none st = (p, st, 1, some .resolutionError) ∧
    proxy_getattr p none st = (p, st, 1, some .resolutionError, none) := by
  unfold force_resolve proxy_getattr
  simp [h]

theorem C8_witness :
    force_resolve unresolvedProxy none tgtState =
      (unresolvedProxy, tgtState, 1, some .resolutionError) ∧
    proxy_getattr unresolvedProxy none tgtState =
      (unresolvedProxy, tgtState, 1, some .resolutionError, none) :=
  C8_failed_resolution_not_cached unresolvedProxy tgtState rfl

/-- C9: resolving an unresolved proxy against a succeeding resolver calls
the resolver exactly once, binds the target and flips the resolved flag; a
second force_resolve is a pure no-op (zero resolver calls, identical proxy
and graph, same target), and the target's inverse-relation set after the
one resolution is the union of its previous set with the proxy's
accumulated set — merged, not replaced. -/
theorem C9_proxy_idempotence (p : Proxy) (st : State) (tgt : ObjId)
    (h : p.resolved = false) :
    ∃ p1 st1,
      force_resolve p (some tgt) st = (p1, st1, 1, none) ∧
      p1.resolved = true ∧
      p1.wrapped = some tgt ∧
      force_resolve p1 (some tgt) st1 = (p1, st1, 0, none) ∧
      (st1.get tgt).invRels = listUnion (st.get tgt).invRels p.proxyRels ∧
      (∀ r, r ∈ (st1.get tgt).invRels ↔
        r ∈ (st.get tgt).invRels ∨ r ∈ p.proxyRels) := by
  have hres : force_resolve p (some tgt) st =
      ({ p with wrapped := some tgt, resolved := true, proxyRels := listUnion (st.get tgt).invRels p.proxyRels }, setInvRels st tgt (listUnion (st.get tgt).invRels p.proxyRels), 1, none) := by
    unfold force_resolve
    simp [h]
  refine ⟨_, _, hres, rfl, rfl, ?_, ?_, ?_⟩
  · unfold force_resolve
    simp
  · exact invRels_setInvRels_self st tgt _
  · intro r
    rw [invRels_setInvRels_self st tgt _]
    exact mem_listUnion _ _ r

theorem C9_witness :
    ∃ p1 st1,
      force_resolve unresolvedProxy (some 4) tgtState = (p1, st1, 1, none) ∧
      p1.resolved = true ∧
      p1.wrapped = some 4 ∧
      force_resolve p1 (some 4) st1 = (p1, st1, 0, none) ∧
      (st1.get 4).invRels = listUnion ((tgtState.get 4).invRels) unresolvedProxy.proxyRels ∧
      (∀ r, r ∈ (st1.get 4).invRels ↔
        r ∈ (tgtState.get 4).invRels ∨ r ∈ unresolvedProxy.proxyRels) :=
  C9_proxy_idempotence unresolvedProxy tgtState 4 rfl

theorem checkAll_fails (m : Model) (st : State) (f : FeatId) (l : List ObjId)
    (h : ∃ y ∈ l, check m st f (.vobj y) ≠ none) :
    ∃ e, checkAll m st f l = some e := by
  induction l with
  | nil => simp at h
  | cons x xs ih =>
    obtain ⟨y, hy, hne⟩ := h
    cases hc : check m st f (.vobj x) with
    | some e => exact ⟨e, by simp [checkAll, hc]⟩
    | none =>
      rcases List.mem_cons.mp hy with rfl | hy'
      · exact absurd hc hne
      · obtain ⟨e, he⟩ := ih ⟨y, hy', hne⟩
        exact ⟨e, by simp [checkAll, hc, he]⟩

/-- C2 counterexample: on the unique collection feature 0 of object 5
(c2setModel/c2setState), update([6]) rejects the ill-typed element with
BadValue — but EOrderedSet.update set the collection's _orderedset_update
flag before delegating to the check loop and has no try/finally, so the
returned state differs from the initial one: the flag is still set, and a
subsequent well-typed add physically inserts the element and marks the
feature set while emitting no ADD notification at all. -/
theorem C2_counterexample :
    (eset_update c2setModel 5 0 [6] c2setState).2 = some Err.badValue ∧
    (eset_update c2setModel 5 0 [6] c2setState).1 ≠ c2setState ∧
    0 ∈ ((eset_update c2setModel 5 0 [6] c2setState).1.get 5).osetUpd ∧
    (eset_add c2setModel 5 0 5 true
        (eset_update c2setModel 5 0 [6] c2setState).1).2 = none ∧
    getMany (eset_add c2setModel 5 0 5 true
        (eset_update c2setModel 5 0 [6] c2setState).1).1 5 0 = [5] ∧
    (eset_add c2setModel 5 0 5 true
        (eset_update c2setModel 5 0 [6] c2setState).1).1.log = [] := by
  decide

/-- C2 amended: a mutation whose value fails the declared type check raises
BadValue before any slot write, isset mark, container or inverse update and
before any notification — the single-valued set, the list append and the
set add leave the state exactly as before the call, and so does a failing
element anywhere in the input of the bulk list extend; but the
set-collection extend/update is not atomic: it returns with every slot,
mark, back pointer, inverse registration and the log unchanged, yet with
the collection's _orderedset_update flag left set, which mutes every later
ADD notification on that collection. -/
theorem C2_amended_reject_atomicity (m : Model) (st : State) (owner : ObjId)
    (f : FeatId) (v : Value) (x : ObjId) (l : List ObjId) :
    (∀ e, check m st f v = some e →
      evalue_set m owner f v true st = (st, some e)) ∧
    (∀ e, check m st f (.vobj x) = some e →
      elist_append m owner f x true st = (st, some e)) ∧
    (∀ e, check m st f (.vobj x) = some e →
      eset_add m owner f x true st = (st, some e)) ∧
    ((∃ y ∈ l, check m st f (.vobj y) ≠ none) →
      ∃ e, elist_extend m owner f l st = (st, some e)) ∧
    ((∃ y ∈ l, check m st f (.vobj y) ≠ none) →
      ∃ e, eset_update m owner f l st = (setOsetUpdate st owner f true, some e) ∧
        (setOsetUpdate st owner f true).log = st.log ∧
        (∀ o g, getSingle m (setOsetUpdate st owner f true) o g = getSingle m st o g) ∧
        (∀ o g, getMany (setOsetUpdate st owner f true) o g = getMany st o g) ∧
        (∀ o, ((setOsetUpdate st owner f true).get o).isset = (st.get o).isset) ∧
        (∀ o, ((setOsetUpdate st owner f true).get o).invRels = (st.get o).invRels) ∧
        (∀ o, ((setOsetUpdate st owner f true).get o).container = (st.get o).container ∧
          ((setOsetUpdate st owner f true).get o).cfeature = (st.get o).cfeature) ∧
        f ∈ ((setOsetUpdate st owner f true).get owner).osetUpd) := by
  have hps : python_stack_limit = 999 + 1 := rfl
  refine ⟨?_, ?_, ?_, ?_, ?_⟩
  · intro e he
    unfold evalue_set
    rw [hps]
    simp only [evalue_set_rec, he]
  · intro e he
    unfold elist_append
    rw [he]
  · intro e he
    unfold eset_add
    rw [he]
  · intro hfail
    obtain ⟨e, he⟩ := checkAll_fails m st f l hfail
    refine ⟨e, ?_⟩
    unfold elist_extend
    rw [he]
  · intro hfail
    have hck : ∀ y, check m (setOsetUpdate st owner f true) f (.vobj y) =
        check m st f (.vobj y) := fun y =>
      check_modify m st owner _ f (.vobj y) (fun _ => ⟨rfl, rfl, rfl⟩)
    obtain ⟨y, hy, hne⟩ := hfail
    obtain ⟨e, he⟩ := checkAll_fails m (setOsetUpdate st owner f true) f l
      ⟨y, hy, by rw [hck]; exact hne⟩
    refine ⟨e, ?_, rfl, ?_, ?_, ?_, ?_, ?_, ?_⟩
    · simp only [eset_update]
      rw [he]
    · intro o g; exact getSingle_modify m st owner _ o g (fun _ => rfl)
    · intro o g; exact getMany_modify st owner _ o g (fun _ => rfl)
    · intro o; exact isset_modify st owner _ o (fun _ => rfl)
    · intro o; exact invRels_modify st owner _ o (fun _ => rfl)
    · intro o; exact container_modify st owner _ o (fun _ => ⟨rfl, rfl⟩)
    · unfold setOsetUpdate
      rw [State.get_modify_self]
      exact mem_setAdd_self _ _

theorem C2_witness :
    evalue_set strictModel 1 0 (.vobj 5) true {} = ({}, some Err.badValue) ∧
    elist_append strictModel 1 0 5 true {} = ({}, some Err.badValue) ∧
    eset_add strictModel 1 0 5 true {} = ({}, some Err.badValue) ∧
    (∃ e, elist_extend strictModel 1 0 [6, 5] {} = ({}, some e)) ∧
    (∃ e, eset_update strictModel 1 0 [6, 5] {} =
      (setOsetUpdate {} 1 0 true, some e)) := by
  have h := C2_amended_reject_atomicity strictModel {} 1 0 (.vobj 5) 5 [6, 5]
  refine ⟨h.1 Err.badValue (by decide), h.2.1 Err.badValue (by decide),
    h.2.2.1 Err.badValue (by decide), h.2.2.2.1 ⟨5, by decide, by decide⟩, ?_⟩
  obtain ⟨e, he, -⟩ := h.2.2.2.2 ⟨5, by decide, by decide⟩
  exact ⟨e, he⟩

theorem findL_firstSome (sups : List EClassR) (n : String) :
    (eAllStructuralFeaturesL sups).find? (fun ft => ft.fname == n) =
      firstSome (sups.map (fun s => findEStructuralFeature s n)) := by
  induction sups with
  | nil => rfl
  | cons c cs ih =>
    rw [show eAllStructuralFeaturesL (c :: cs) =
        eAllStructuralFeatures c ++ eAllStructuralFeaturesL cs from by
      simp [eAllStructuralFeaturesL]]
    rw [List.find?_append, ih, List.map_cons]
    cases hc : findEStructuralFeature c n with
    | some ft =>
      have : (eAllStructuralFeatures c).find? (fun ft => ft.fname == n) = some ft := hc
      simp [firstSome, this]
    | none =>
      have : (eAllStructuralFeatures c).find? (fun ft => ft.fname == n) = none := hc
      simp [firstSome, this]

theorem findOpL_firstSome (sups : List EClassR) (n : String) :
    (eAllOperationsL sups).find? (fun op => op.oname == n) =
      firstSome (sups.map (fun s => findEOperation s n)) := by
  induction sups with
  | nil => rfl
  | cons c cs ih =>
    rw [show eAllOperationsL (c :: cs) =
        eAllOperations c ++ eAllOperationsL cs from by
      simp [eAllOperationsL]]
    rw [List.find?_append, ih, List.map_cons]
    cases hc : findEOperation c n with
    | some op =>
      have : (eAllOperations c).find? (fun op => op.oname == n) = some op := hc
      simp [firstSome, this]
    | none =>
      have : (eAllOperations c).find? (fun op => op.oname == n) = none := hc
      simp [firstSome, this]

/-- C6: findEStructuralFeature and findEOperation return the first name
match of the fixed generator walk — the class's own declarations first, in
declaration order, so a redeclaration in a subtype shadows every ancestor's,
and otherwise the supertypes depth first in supertype declaration order (the
Option.or/firstSome recursion below is exactly that tie-breaking walk) — and
the lookup yields none exactly when no feature of the closure carries the
name. -/
theorem C6_lookup_order (own : List EFeat) (ops : List EOp) (sups : List EClassR)
    (c : EClassR) (n : String) :
    (findEStructuralFeature (.mk own ops sups) n =
      (own.find? (fun ft => ft.fname == n)).or
        (firstSome (sups.map (fun s => findEStructuralFeature s n)))) ∧
    (findEOperation (.mk own ops sups) n =
      (ops.find? (fun op => op.oname == n)).or
        (firstSome (sups.map (fun s => findEOperation s n)))) ∧
    (findEStructuralFeature c n = none ↔
      ∀ ft ∈ eAllStructuralFeatures c, ft.fname ≠ n) := by
  refine ⟨?_, ?_, ?_⟩
  · unfold findEStructuralFeature
    rw [show eAllStructuralFeatures (.mk own ops sups) =
        own ++ eAllStructuralFeaturesL sups from by
      simp [eAllStructuralFeatures]]
    rw [List.find?_append, findL_firstSome]
    rfl
  · unfold findEOperation
    rw [show eAllOperations (.mk own ops sups) =
        ops ++ eAllOperationsL sups from by
      simp [eAllOperations]]
    rw [List.find?_append, findOpL_firstSome]
    rfl
  · unfold findEStructuralFeature
    rw [List.find?_eq_none]
    simp only [beq_iff_eq]

theorem C6_witness :
    findEStructuralFeature (EClassR.mk [⟨"x", 0⟩] [] [EClassR.mk [⟨"x", 1⟩] [] []]) "x" =
      (([⟨"x", 0⟩] : List EFeat).find? (fun ft => ft.fname == "x")).or
        (firstSome ([EClassR.mk [⟨"x", 1⟩] [] []].map
          (fun s => findEStructuralFeature s "x"))) :=
  (C6_lookup_order [⟨"x", 0⟩] [] [EClassR.mk [⟨"x", 1⟩] [] []]
    (EClassR.mk [] [] []) "x").1

/-- C1 counterexample: with mutually opposite single-valued references R
(feature 0) and R' (feature 1), running a.set(R, b) and then a.set(R, c)
(objects a=10, b=11, c=12) completes without error, yet afterwards
b.get(R') = a while a.get(R) = c and a.get(R) is not b: a is still in b's R'
slot although b is no longer a's R value, refuting the claimed equivalence
after a mutating call returns (the replacement never clears a from b's R'
slot). -/
theorem C1_counterexample :
    (evalue_set oppModel 10 0 (.vobj 11) true {}).2 = none ∧
    (evalue_set oppModel 10 0 (.vobj 12) true
      (evalue_set oppModel 10 0 (.vobj 11) true {}).1).2 = none ∧
    getSingle oppModel (evalue_set oppModel 10 0 (.vobj 12) true
      (evalue_set oppModel 10 0 (.vobj 11) true {}).1).1 11 1 = .vobj 10 ∧
    getSingle oppModel (evalue_set oppModel 10 0 (.vobj 12) true
      (evalue_set oppModel 10 0 (.vobj 11) true {}).1).1 10 0 = .vobj 12 ∧
    getSingle oppModel (evalue_set oppModel 10 0 (.vobj 12) true
      (evalue_set oppModel 10 0 (.vobj 11) true {}).1).1 10 0 ≠ .vobj 11 := by
  decide

/-- C3 counterexample: appending object 3 into the containment list feature
0 of owner 1 and then of owner 2 succeeds and leaves 3 physically present in
both owners' containment collections — only the container back pointer moved
to owner 2 — so the object is reachable as a contained child of two owners
at once, refuting the claimed removal from the previous owner's containment
collection. -/
theorem C3_counterexample :
    (elist_append contModel 1 0 3 true {}).2 = none ∧
    (elist_append contModel 2 0 3 true (elist_append contModel 1 0 3 true {}).1).2 = none ∧
    getMany (elist_append contModel 2 0 3 true
      (elist_append contModel 1 0 3 true {}).1).1 1 0 = [3] ∧
    getMany (elist_append contModel 2 0 3 true
      (elist_append contModel 1 0 3 true {}).1).1 2 0 = [3] ∧
    ((elist_append contModel 2 0 3 true
      (elist_append contModel 1 0 3 true {}).1).1.get 3).container = some 2 := by
  decide

/-- C7 counterexample: clearing the list feature 0 of object 1 holding the
duplicate contents [5, 5] removes only the first occurrence of 5 (clear
iterates set(self), so each distinct element is removed once) and emits a
single REMOVE notification: the collection is left holding [5], not empty,
refuting the claimed removal of every duplicate occurrence. -/
theorem C7_counterexample :
    (ecoll_clear attrListModel 1 0 dupState).2 = none ∧
    getMany (ecoll_clear attrListModel 1 0 dupState).1 1 0 = [5] ∧
    (ecoll_clear attrListModel 1 0 dupState).1.log =
      [{ target := 1, feature := 0, kind := .remove, old := .one (.vobj 5) }] := by
  decide

theorem container_addIsset (st : State) (o : ObjId) (f : FeatId) (o' : ObjId) :
    ((addIsset st o f).get o').container = (st.get o').container ∧
      ((addIsset st o f).get o').cfeature = (st.get o').cfeature :=
  container_modify st o _ o' (fun _ => ⟨rfl, rfl⟩)

theorem container_setManyVal (st : State) (o : ObjId) (f : FeatId) (l : List ObjId)
    (o' : ObjId) :
    ((setManyVal st o f l).get o').container = (st.get o').container ∧
      ((setManyVal st o f l).get o').cfeature = (st.get o').cfeature :=
  container_modify st o _ o' (fun _ => ⟨rfl, rfl⟩)

theorem container_setSingle (st : State) (o : ObjId) (f : FeatId) (v : Value)
    (o' : ObjId) :
    ((setSingle st o f v).get o').container = (st.get o').container ∧
      ((setSingle st o f v).get o').cfeature = (st.get o').cfeature :=
  container_modify st o _ o' (fun _ => ⟨rfl, rfl⟩)

theorem container_addInvRel (st : State) (o : ObjId) (c : ObjId × FeatId)
    (o' : ObjId) :
    ((addInvRel st o c).get o').container = (st.get o').container ∧
      ((addInvRel st o c).get o').cfeature = (st.get o').cfeature :=
  container_modify st o _ o' (fun _ => ⟨rfl, rfl⟩)

theorem container_eraseInvRel (st : State) (o : ObjId) (c : ObjId × FeatId)
    (o' : ObjId) :
    ((eraseInvRel st o c).get o').container = (st.get o').container ∧
      ((eraseInvRel st o c).get o').cfeature = (st.get o').cfeature :=
  container_modify st o _ o' (fun _ => ⟨rfl, rfl⟩)

theorem container_notify (st : State) (n : Notif) (o' : ObjId) :
    ((notify st n).get o').container = (st.get o').container ∧
      ((notify st n).get o').cfeature = (st.get o').cfeature :=
  ⟨rfl, rfl⟩

theorem container_setContainerOf_self (st : State) (x ow : ObjId) (f : FeatId) :
    ((setContainerOf st x ow f).get x).container = some ow ∧
      ((setContainerOf st x ow f).get x).cfeature = some f := by
  unfold setContainerOf
  rw [State.get_modify_self]
  exact ⟨rfl, rfl⟩

theorem container_clearContainerOf_self (st : State) (p : ObjId) :
    ((clearContainerOf st p).get p).container = none ∧
      ((clearContainerOf st p).get p).cfeature = none := by
  unfold clearContainerOf
  rw [State.get_modify_self]
  exact ⟨rfl, rfl⟩

theorem container_setContainerOf_ne (st : State) (x ow : ObjId) (f : FeatId)
    (o' : ObjId) (h : o' ≠ x) :
    ((setContainerOf st x ow f).get o').container = (st.get o').container ∧
      ((setContainerOf st x ow f).get o').cfeature = (st.get o').cfeature := by
  unfold setContainerOf
  rw [State.get_modify_ne _ _ _ _ h]
  exact ⟨rfl, rfl⟩

theorem container_clearContainerOf_ne (st : State) (p o' : ObjId) (h : o' ≠ p) :
    ((clearContainerOf st p).get o').container = (st.get o').container ∧
      ((clearContainerOf st p).get o').cfeature = (st.get o').cfeature := by
  unfold clearContainerOf
  rw [State.get_modify_ne _ _ _ _ h]
  exact ⟨rfl, rfl⟩

/-- C3 amended: appending x into a containment Reference collection of a new
owner repoints x's container and containment-feature back pointers at that
owner (an object carries one container back pointer, so at most one
container at a time in that sense), but removes nothing physically: every
other object's collections — in particular a previous owner's containment
collection still holding x — are exactly as before the call. -/
theorem C3_amended_container_backpointer (m : Model) (st : State) (owner : ObjId)
    (f : FeatId) (x : ObjId)
    (href : (m.feat f).isRef = true)
    (hcont : (m.feat f).containment = true)
    (hnopp : (m.feat f).eOpposite = none)
    (hchk : check m st f (.vobj x) = none) :
    ∃ st', elist_append m owner f x true st = (st', none) ∧
      (st'.get x).container = some owner ∧
      (st'.get x).cfeature = some f ∧
      getMany st' owner f = getMany st owner f ++ [x] ∧
      (∀ o g, o ≠ owner → getMany st' o g = getMany st o g) := by
  have hop : ecoll_update_opposite m f x owner false
      (setContainerOf st x owner f) =
      (addInvRel (setContainerOf st x owner f) x (owner, f), none) := by
    unfold ecoll_update_opposite
    simp [href, hnopp]
  have happ : elist_append m owner f x true st =
      (addIsset (notify (setManyVal (addInvRel (setContainerOf st x owner f) x (owner, f))
        owner f (getMany (addInvRel (setContainerOf st x owner f) x (owner, f)) owner f
          ++ [x]))
        { target := owner, feature := f, kind := .add, new := .one (.vobj x) })
        owner f, none) := by
    unfold elist_append
    simp only [hchk]
    rw [update_container_some_none m owner f x st href hcont]
    simp only [if_true, hop, seqres]
  refine ⟨_, happ, ?_, ?_, ?_, ?_⟩
  · rw [(container_addIsset _ _ _ _).1, (container_notify _ _ _).1,
      (container_setManyVal _ _ _ _ _).1, (container_addInvRel _ _ _ _).1,
      (container_setContainerOf_self _ _ _ _).1]
  · rw [(container_addIsset _ _ _ _).2, (container_notify _ _ _).2,
      (container_setManyVal _ _ _ _ _).2, (container_addInvRel _ _ _ _).2,
      (container_setContainerOf_self _ _ _ _).2]
  · rw [getMany_addIsset, getMany_notify, getMany_setManyVal]
    simp [getMany_addInvRel, getMany_setContainerOf]
  · intro o g ho
    rw [getMany_addIsset, getMany_notify, getMany_setManyVal]
    rw [if_neg (fun hh => ho hh.1)]
    rw [getMany_addInvRel, getMany_setContainerOf]

theorem C3_witness :
    ∃ st', elist_append contModel 1 0 3 true {} = (st', none) ∧
      (st'.get 3).container = some 1 ∧
      (st'.get 3).cfeature = some 0 ∧
      getMany st' 1 0 = getMany {} 1 0 ++ [3] ∧
      (∀ o g, o ≠ 1 → getMany st' o g = getMany ({} : State) o g) :=
  C3_amended_container_backpointer contModel {} 1 0 3 (by decide) (by decide)
    (by decide) (by decide)

/-- C1 amended: a single-valued set through a Reference R with a
single-valued opposite R' makes the new edge symmetric — afterwards
a.get(R) = v and v.get(R') = a — and an unset clears the old edge, but a
replacement performs no cleanup on the old target: the R' slot of every
object b other than v is left exactly as it was, so a previously linked b
keeps its stale back pointer to a even though a.get(R) is no longer b. -/
theorem C1_amended_stale_opposite (m : Model) (st : State) (a v b : ObjId)
    (R Rp : FeatId)
    (href : (m.feat R).isRef = true)
    (hopp : (m.feat R).eOpposite = some Rp)
    (hsingle : (m.feat Rp).many = false)
    (hne : Rp ≠ R)
    (hb : b ≠ v)
    (hc1 : check m st R (.vobj v) = none)
    (hc2 : check m st Rp (.vobj a) = none) :
    ∃ st', evalue_set m a R (.vobj v) true st = (st', none) ∧
      getSingle m st' a R = .vobj v ∧
      getSingle m st' v Rp = .vobj a ∧
      getSingle m st' b Rp = getSingle m st b Rp := by
  have hc4 : check m (update_container m a R (some v) (toOpt (getSingle m st a R))
      (addIsset (notify (setSingle st a R (.vobj v))
        { target := a, feature := R, kind := .set,
          old := .one (getSingle m st a R), new := .one (.vobj v) }) a R)) Rp
      (.vobj a) = none := by
    rw [check_update_container, check_addIsset, check_notify, check_setSingle, hc2]
  have hmain : evalue_set m a R (.vobj v) true st =
      evalue_set_nop m v Rp (.vobj a)
        (update_container m a R (some v) (toOpt (getSingle m st a R))
          (addIsset (notify (setSingle st a R (.vobj v))
            { target := a, feature := R, kind := .set,
              old := .one (getSingle m st a R), new := .one (.vobj v) }) a R)) := by
    have hps : python_stack_limit = 999 + 1 := rfl
    unfold evalue_set
    rw [hps, evalue_set_rec]
    simp only [hc1, hopp, href, hsingle]
    simp [toOpt]
  rw [hmain]
  unfold evalue_set_nop
  simp only [hc4]
  by_cases hrp : (m.feat Rp).isRef = false
  · rw [if_pos hrp]
    refine ⟨_, rfl, ?_, ?_, ?_⟩
    · rw [getSingle_addIsset, getSingle_notify, getSingle_setSingle,
        if_neg (fun hh => hne hh.2.symm), getSingle_update_container,
        getSingle_addIsset, getSingle_notify, getSingle_setSingle]
      simp
    · rw [getSingle_addIsset, getSingle_notify, getSingle_setSingle]
      simp
    · rw [getSingle_addIsset, getSingle_notify, getSingle_setSingle,
        if_neg (fun hh => hb hh.1), getSingle_update_container,
        getSingle_addIsset, getSingle_notify, getSingle_setSingle,
        if_neg (fun hh => hne hh.2)]
  · rw [if_neg hrp]
    refine ⟨_, rfl, ?_, ?_, ?_⟩
    · rw [getSingle_update_container, getSingle_addIsset, getSingle_notify,
        getSingle_setSingle, if_neg (fun hh => hne hh.2.symm),
        getSingle_update_container, getSingle_addIsset, getSingle_notify,
        getSingle_setSingle]
      simp
    · rw [getSingle_update_container, getSingle_addIsset, getSingle_notify,
        getSingle_setSingle]
      simp
    · rw [getSingle_update_container, getSingle_addIsset, getSingle_notify,
        getSingle_setSingle, if_neg (fun hh => hb hh.1),
        getSingle_update_container, getSingle_addIsset, getSingle_notify,
        getSingle_setSingle, if_neg (fun hh => hne hh.2)]

theorem C1_witness :
    ∃ st', evalue_set oppModel 10 0 (.vobj 11) true {} = (st', none) ∧
      getSingle oppModel st' 10 0 = .vobj 11 ∧
      getSingle oppModel st' 11 1 = .vobj 10 ∧
      getSingle oppModel st' 12 1 = getSingle oppModel {} 12 1 :=
  C1_amended_stale_opposite oppModel {} 10 11 12 0 1 (by decide) (by decide)
    (by decide) (by decide) (by decide) (by decide) (by decide)

theorem ecoll_remove_step (m : Model) (owner : ObjId) (f : FeatId) (x : ObjId)
    (st : State) (hcont : (m.feat f).containment = false)
    (hnopp : (m.feat f).eOpposite = none)
    (hx : x ∈ getMany st owner f) :
    ∃ st', ecoll_remove m owner f x true st = (st', none) ∧
      getMany st' owner f = (getMany st owner f).erase x ∧
      st'.log = st.log ++
        [{ target := owner, feature := f, kind := .remove, old := .one (.vobj x) }] := by
  unfold ecoll_remove
  rw [update_container_not_containment m owner f none (some x) st hcont]
  unfold ecoll_update_opposite
  by_cases hr : (m.feat f).isRef = false
  · simp only [hr, hnopp, eq_self_iff_true, if_true, seqres]
    rw [if_pos hx]
    refine ⟨_, rfl, ?_, ?_⟩
    · rw [getMany_notify, getMany_setManyVal]
      simp
    · rw [log_notify, log_setManyVal]
  · have hr' : (m.feat f).isRef = true := by
      revert hr
      cases (m.feat f).isRef <;> simp
    by_cases hmem : ((owner, f) ∈ (st.get x).invRels)
    · simp only [hr', hnopp, hmem, eq_self_iff_true, if_true, decide_eq_true hmem,
        decide_True, Bool.true_eq_false, if_false, Bool.and_self, Bool.and_true, seqres]
      have hx1 : x ∈ getMany (eraseInvRel st x (owner, f)) owner f := by
        rw [getMany_eraseInvRel]; exact hx
      rw [if_pos hx1]
      refine ⟨_, rfl, ?_, ?_⟩
      · rw [getMany_notify, getMany_setManyVal]
        simp [getMany_eraseInvRel]
      · rw [log_notify, log_setManyVal, log_eraseInvRel]
    · simp only [hr', hnopp, hmem, eq_self_iff_true, if_true, decide_eq_false hmem,
        decide_False, Bool.true_eq_false, Bool.false_eq_true, if_false,
        Bool.and_false, seqres]
      have hx1 : x ∈ getMany (addInvRel st x (owner, f)) owner f := by
        rw [getMany_addInvRel]; exact hx
      rw [if_pos hx1]
      refine ⟨_, rfl, ?_, ?_⟩
      · rw [getMany_notify, getMany_setManyVal]
        simp [getMany_addInvRel]
      · rw [log_notify, log_setManyVal, log_addInvRel]

theorem clear_loop_spec (m : Model) (owner : ObjId) (f : FeatId)
    (hcont : (m.feat f).containment = false)
    (hnopp : (m.feat f).eOpposite = none) :
    ∀ (l : List ObjId) (st : State), getMany st owner f = l →
    ∃ st', clear_loop m owner f l st = (st', none) ∧
      getMany st' owner f = [] ∧
      st'.log = st.log ++ l.map (fun x =>
        { target := owner, feature := f, kind := .remove, old := .one (.vobj x) }) := by
  intro l
  induction l with
  | nil => intro st hc; exact ⟨st, rfl, hc, by simp⟩
  | cons x xs ih =>
    intro st hc
    obtain ⟨st1, hrem, hmany, hlog⟩ := ecoll_remove_step m owner f x st hcont hnopp
      (by rw [hc]; exact List.mem_cons_self x xs)
    have hmany1 : getMany st1 owner f = xs := by
      rw [hmany, hc, List.erase_cons_head]
    obtain ⟨st', hloop, hempty, hlog'⟩ := ih st1 hmany1
    refine ⟨st', ?_, hempty, ?_⟩
    · unfold clear_loop
      rw [hrem]
      simp [seqres, hloop]
    · rw [hlog', hlog]
      simp

/-- C7 amended: clear removes one occurrence of each distinct current
element through the single-element remove path, with one REMOVE notification
carrying that element per distinct element and the per-element unlinking
remove performs; when the current contents are duplicate-free — always the
case for the unique collections, and for lists and bags without duplicates —
this removes every element and leaves the collection empty, but a duplicate
occurrence beyond the first survives clear. -/
theorem C7_amended_clear_distinct (m : Model) (owner : ObjId) (f : FeatId)
    (st : State) (hcont : (m.feat f).containment = false)
    (hnopp : (m.feat f).eOpposite = none)
    (hnd : (getMany st owner f).Nodup) :
    ∃ st', ecoll_clear m owner f st = (st', none) ∧
      getMany st' owner f = [] ∧
      st'.log = st.log ++ (getMany st owner f).map (fun x =>
        { target := owner, feature := f, kind := .remove, old := .one (.vobj x) }) := by
  unfold ecoll_clear
  rw [List.Nodup.dedup hnd]
  exact clear_loop_spec m owner f hcont hnopp (getMany st owner f) st rfl

theorem C7_witness :
    ∃ st', ecoll_clear attrListModel 1 0 distinctState = (st', none) ∧
      getMany st' 1 0 = [] ∧
      st'.log = distinctState.log ++ (getMany distinctState 1 0).map (fun x =>
        { target := 1, feature := 0, kind := .remove, old := .one (.vobj x) }) :=
  C7_amended_clear_distinct attrListModel 1 0 distinctState (by decide) (by decide)
    (by decide)

theorem isset_addIsset_mono (st : State) (o o' : ObjId) (f g : FeatId)
    (h : g ∈ (st.get o').isset) : g ∈ ((addIsset st o f).get o').isset := by
  by_cases ho : o' = o
  · subst ho
    unfold addIsset
    rw [State.get_modify_self]
    exact (mem_setAdd _ _ _).mpr (Or.inl h)
  · unfold addIsset
    rw [State.get_modify_ne _ _ _ _ ho]
    exact h

theorem unsetDelta_refl (m : Model) (st : State) : unsetDelta m st st :=
  ⟨fun _ _ => Or.inl rfl, fun _ _ h => h, [], by simp⟩

theorem unsetDelta_trans (m : Model) (s1 s2 s3 : State)
    (h12 : unsetDelta m s1 s2) (h23 : unsetDelta m s2 s3) : unsetDelta m s1 s3 := by
  obtain ⟨a12, b12, r12, l12⟩ := h12
  obtain ⟨a23, b23, r23, l23⟩ := h23
  refine ⟨?_, fun o g h => b23 o g (b12 o g h), r12 ++ r23,
    by rw [l23, l12, List.append_assoc]⟩
  intro o g
  rcases a23 o g with h | h
  · rw [h]; exact a12 o g
  · exact Or.inr h

theorem unsetDelta_setSingle_none (m : Model) (st : State) (o : ObjId) (f : FeatId) :
    unsetDelta m st (setSingle st o f .vnone) := by
  refine ⟨?_, ?_, [], by rw [log_setSingle, List.append_nil]⟩
  · intro o' g
    rw [getSingle_setSingle]
    by_cases h : o' = o ∧ g = f
    · rw [if_pos h]; exact Or.inr rfl
    · rw [if_neg h]; exact Or.inl rfl
  · intro o' g h
    rw [isset_setSingle]
    exact h

theorem unsetDelta_notify (m : Model) (st : State) (n : Notif) :
    unsetDelta m st (notify st n) :=
  ⟨fun o g => Or.inl (by rw [getSingle_notify]),
   fun o g h => by rw [isset_notify]; exact h,
   [n], log_notify st n⟩

theorem unsetDelta_addIsset (m : Model) (st : State) (o : ObjId) (f : FeatId) :
    unsetDelta m st (addIsset st o f) :=
  ⟨fun o' g => Or.inl (by rw [getSingle_addIsset]),
   fun o' g h => isset_addIsset_mono st o o' f g h,
   [], by rw [log_addIsset, List.append_nil]⟩

theorem unsetDelta_update_container (m : Model) (o : ObjId) (f : FeatId)
    (vv pv : Option ObjId) (st : State) :
    unsetDelta m st (update_container m o f vv pv st) :=
  ⟨fun o' g => Or.inl (by rw [getSingle_update_container]),
   fun o' g h => by rw [isset_update_container]; exact h,
   [], by rw [log_update_container, List.append_nil]⟩

theorem unsetDelta_eraseInvRel (m : Model) (st : State) (o : ObjId)
    (c : ObjId × FeatId) :
    unsetDelta m st (eraseInvRel st o c) :=
  ⟨fun o' g => Or.inl (by rw [getSingle_eraseInvRel]),
   fun o' g h => by rw [isset_eraseInvRel]; exact h,
   [], by rw [log_eraseInvRel, List.append_nil]⟩

theorem unsetDelta_setManyVal (m : Model) (st : State) (o : ObjId) (f : FeatId)
    (l : List ObjId) :
    unsetDelta m st (setManyVal st o f l) :=
  ⟨fun o' g => Or.inl (by rw [getSingle_setManyVal]),
   fun o' g h => by rw [isset_setManyVal]; exact h,
   [], by rw [log_setManyVal, List.append_nil]⟩

theorem unsetDelta_ecoll_remove_nop (m : Model) (p : ObjId) (opp : FeatId)
    (ow : ObjId) (st : State) :
    unsetDelta m st (ecoll_remove_nop m p opp ow st).1 ∧
    (ecoll_remove_nop m p opp ow st).2 ≠ some Err.badValue := by
  simp only [ecoll_remove_nop]
  split
  · exact ⟨unsetDelta_trans _ _ _ _ (unsetDelta_update_container m p opp none (some ow) st)
      (unsetDelta_trans _ _ _ _ (unsetDelta_setManyVal m _ p opp _)
        (unsetDelta_notify m _ _)), by simp⟩
  · exact ⟨unsetDelta_update_container m p opp none (some ow) st, by simp⟩

theorem unset_cascade_invariant (fuel : Nat) : ∀ (m : Model) (owner : ObjId)
    (f : FeatId) (st : State),
    unsetDelta m st (evalue_set_rec fuel m owner f .vnone true st).1 ∧
    (evalue_set_rec fuel m owner f .vnone true st).2 ≠ some Err.badValue := by
  induction fuel with
  | zero =>
    intro m owner f st
    exact ⟨unsetDelta_refl m st, by simp [evalue_set_rec]⟩
  | succ fuel ih =>
    intro m owner f st
    have hchk : check m st f Value.vnone = none := by simp [check, ecore_isinstance]
    have hksimp : (if Value.vnone = Value.vnone then NKind.unset else NKind.set) =
        NKind.unset := rfl
    rw [evalue_set_rec]
    simp only [hchk, hksimp, if_true, Bool.true_eq_false, if_false]
    have hd3 : unsetDelta m st
        (addIsset (notify (setSingle st owner f Value.vnone) { target := owner, feature := f, kind := NKind.unset, old := NVal.one (getSingle m st owner f), new := NVal.one Value.vnone }) owner f) :=
      unsetDelta_trans _ _ _ _ (unsetDelta_setSingle_none m st owner f)
        (unsetDelta_trans _ _ _ _ (unsetDelta_notify m _ _) (unsetDelta_addIsset m _ owner f))
    have hd4 : ∀ vv pv, unsetDelta m st
        (update_container m owner f vv pv
          (addIsset (notify (setSingle st owner f Value.vnone) { target := owner, feature := f, kind := NKind.unset, old := NVal.one (getSingle m st owner f), new := NVal.one Value.vnone }) owner f)) := fun vv pv =>
      unsetDelta_trans _ _ _ _ hd3 (unsetDelta_update_container m owner f vv pv _)
    split
    · exact ⟨hd3, by simp⟩
    · split
      · cases hprev : getSingle m st owner f with
        | vnone =>
          rw [hprev] at hd4
          exact ⟨hd4 _ _, by simp⟩
        | vobj p =>
          rw [hprev] at hd4
          simp only []
          split
          · exact ⟨unsetDelta_trans _ _ _ _ (hd4 _ _) (unsetDelta_eraseInvRel m _ _ _), by simp⟩
          · exact ⟨hd4 _ _, by simp⟩
      · cases hprev : getSingle m st owner f with
        | vnone =>
          rw [hprev] at hd4
          exact ⟨hd4 _ _, by simp⟩
        | vobj p =>
          rw [hprev] at hd4
          simp only []
          split
          · exact ⟨unsetDelta_trans _ _ _ _ (hd4 _ _)
                (unsetDelta_ecoll_remove_nop m _ _ owner _).1,
              (unsetDelta_ecoll_remove_nop m _ _ owner _).2⟩
          · exact ⟨unsetDelta_trans _ _ _ _ (hd4 _ _) (ih m _ _ _).1, (ih m _ _ _).2⟩

theorem unset_step_delta (fuel : Nat) (m : Model) (owner : ObjId) (f : FeatId)
    (st : State) :
    unsetDelta m
      (addIsset (notify (setSingle st owner f Value.vnone) { target := owner, feature := f, kind := NKind.unset, old := NVal.one (getSingle m st owner f), new := NVal.one Value.vnone }) owner f)
      (evalue_set_rec (fuel + 1) m owner f .vnone true st).1 ∧
    (evalue_set_rec (fuel + 1) m owner f .vnone true st).2 ≠ some Err.badValue := by
  have hchk : check m st f Value.vnone = none := by simp [check, ecore_isinstance]
  have hksimp : (if Value.vnone = Value.vnone then NKind.unset else NKind.set) =
      NKind.unset := rfl
  rw [evalue_set_rec]
  simp only [hchk, hksimp, if_true, Bool.true_eq_false, if_false]
  have hd4 : ∀ vv pv, unsetDelta m
      (addIsset (notify (setSingle st owner f Value.vnone) { target := owner, feature := f, kind := NKind.unset, old := NVal.one (getSingle m st owner f), new := NVal.one Value.vnone }) owner f)
      (update_container m owner f vv pv
        (addIsset (notify (setSingle st owner f Value.vnone) { target := owner, feature := f, kind := NKind.unset, old := NVal.one (getSingle m st owner f), new := NVal.one Value.vnone }) owner f)) := fun vv pv =>
    unsetDelta_update_container m owner f vv pv _
  split
  · exact ⟨unsetDelta_refl m _, by simp⟩
  · split
    · cases hprev : getSingle m st owner f with
      | vnone =>
        rw [hprev] at hd4
        exact ⟨hd4 _ _, by simp⟩
      | vobj p =>
        rw [hprev] at hd4
        simp only []
        split
        · exact ⟨unsetDelta_trans _ _ _ _ (hd4 _ _) (unsetDelta_eraseInvRel m _ _ _), by simp⟩
        · exact ⟨hd4 _ _, by simp⟩
    · cases hprev : getSingle m st owner f with
      | vnone =>
        rw [hprev] at hd4
        exact ⟨hd4 _ _, by simp⟩
      | vobj p =>
        rw [hprev] at hd4
        simp only []
        split
        · exact ⟨unsetDelta_trans _ _ _ _ (hd4 _ _)
              (unsetDelta_ecoll_remove_nop m _ _ owner _).1,
            (unsetDelta_ecoll_remove_nop m _ _ owner _).2⟩
        · exact ⟨unsetDelta_trans _ _ _ _ (hd4 _ _) (unset_cascade_invariant fuel m _ _ _).1,
            (unset_cascade_invariant fuel m _ _ _).2⟩

theorem unset_set_spec (fuel : Nat) (m : Model) (owner : ObjId) (f : FeatId)
    (st : State) :
    (evalue_set_rec (fuel + 1) m owner f .vnone true st).2 ≠ some Err.badValue ∧
    getSingle m (evalue_set_rec (fuel + 1) m owner f .vnone true st).1 owner f = .vnone ∧
    f ∈ ((evalue_set_rec (fuel + 1) m owner f .vnone true st).1.get owner).isset ∧
    ∃ rest, (evalue_set_rec (fuel + 1) m owner f .vnone true st).1.log = st.log ++
      ({ target := owner, feature := f, kind := .unset,
         old := .one (getSingle m st owner f), new := .one Value.vnone } :: rest) := by
  obtain ⟨⟨hs, hi, rest, hl⟩, he⟩ := unset_step_delta fuel m owner f st
  refine ⟨he, ?_, ?_, rest, ?_⟩
  · rcases hs owner f with h | h
    · rw [h, getSingle_addIsset, getSingle_notify, getSingle_setSingle,
        if_pos ⟨rfl, rfl⟩]
    · exact h
  · exact hi owner f (by rw [isset_addIsset_self]; exact mem_setAdd_self _ _)
  · rw [hl, log_addIsset, log_notify, log_setSingle, List.append_assoc]
    rfl

/-- C10: None passes every feature type check regardless of the declared
type, and so does an unresolved proxy — the embedded isinstance consults no
resolver at all, so no resolution is forced; consequently a single-valued
set to None never raises BadValue: whatever the opposite-cleanup cascade
then does or raises on its own account, the call has already stored None,
emitted the UNSET-kind notification carrying the old value first among its
emissions, and marked the feature explicitly set, and those three effects
survive to the returned state. -/
theorem C10_none_always_passes (m : Model) (st : State) (owner : ObjId) (f : FeatId) :
    check m st f .vnone = none ∧
    (∀ o, (st.get o).isProxy = true → (st.get o).resolved = false →
      check m st f (.vobj o) = none) ∧
    ((evalue_set m owner f .vnone true st).2 ≠ some Err.badValue ∧
      getSingle m (evalue_set m owner f .vnone true st).1 owner f = .vnone ∧
      f ∈ ((evalue_set m owner f .vnone true st).1.get owner).isset ∧
      ∃ rest, (evalue_set m owner f .vnone true st).1.log = st.log ++
        ({ target := owner, feature := f, kind := .unset,
           old := .one (getSingle m st owner f), new := .one Value.vnone } :: rest)) := by
  refine ⟨by simp [check, ecore_isinstance], ?_, ?_⟩
  · intro o h1 h2
    simp [check, ecore_isinstance, h1, h2]
  · have hps : python_stack_limit = 999 + 1 := rfl
    unfold evalue_set
    rw [hps]
    exact unset_set_spec 999 m owner f st

theorem C10_witness :
    check proxyCheckModel proxyCheckState 0 (.vobj 2) = none :=
  (C10_none_always_passes proxyCheckModel proxyCheckState 1 0).2.1 2
    (by decide) (by decide)

theorem prodEq {A B : Type} {a a' : A} {b b' : B} (h : (a, b) = (a', b')) :
    a = a' ∧ b = b' := by
  injection h with h1 h2
  exact ⟨h1, h2⟩

theorem filter_none_of_oppdelta (m : Model) (f : FeatId) (owner : ObjId)
    (ns : List Notif)
    (hopp : ∀ opp, (m.feat f).eOpposite = some opp → opp ≠ f)
    (hall : ∀ n ∈ ns, ∃ opp, (m.feat f).eOpposite = some opp ∧ n.feature = opp) :
    ns.filter (fun n => n.target == owner && n.feature == f) = [] := by
  induction ns with
  | nil => rfl
  | cons n t ih =>
    obtain ⟨opp, ho, hf⟩ := hall n (by simp)
    have hne := hopp opp ho
    have hb : (n.target == owner && n.feature == f) = false := by
      rw [hf]
      simp [hne]
    simp only [List.filter, hb]
    exact ih (fun x hx => hall x (by simp [hx]))

theorem osetUpd_modify (st : State) (o : ObjId) (g : Obj → Obj) (o' : ObjId)
    (hg : ∀ ob, (g ob).osetUpd = ob.osetUpd) :
    ((st.modifyObj o g).get o').osetUpd = (st.get o').osetUpd := by
  by_cases h : o' = o
  · subst h; rw [State.get_modify_self, hg]
  · rw [State.get_modify_ne _ _ _ _ h]

theorem osetUpd_setSingle (st : State) (o : ObjId) (f : FeatId) (v : Value)
    (o' : ObjId) :
    ((setSingle st o f v).get o').osetUpd = (st.get o').osetUpd :=
  osetUpd_modify st o _ o' (fun _ => rfl)

theorem osetUpd_setManyVal (st : State) (o : ObjId) (f : FeatId) (l : List ObjId)
    (o' : ObjId) :
    ((setManyVal st o f l).get o').osetUpd = (st.get o').osetUpd :=
  osetUpd_modify st o _ o' (fun _ => rfl)

theorem osetUpd_addIsset (st : State) (o : ObjId) (f : FeatId) (o' : ObjId) :
    ((addIsset st o f).get o').osetUpd = (st.get o').osetUpd :=
  osetUpd_modify st o _ o' (fun _ => rfl)

theorem osetUpd_addInvRel (st : State) (o : ObjId) (c : ObjId × FeatId) (o' : ObjId) :
    ((addInvRel st o c).get o').osetUpd = (st.get o').osetUpd :=
  osetUpd_modify st o _ o' (fun _ => rfl)

theorem osetUpd_eraseInvRel (st : State) (o : ObjId) (c : ObjId × FeatId) (o' : ObjId) :
    ((eraseInvRel st o c).get o').osetUpd = (st.get o').osetUpd :=
  osetUpd_modify st o _ o' (fun _ => rfl)

theorem osetUpd_setContainerOf (st : State) (o ow : ObjId) (f : FeatId) (o' : ObjId) :
    ((setContainerOf st o ow f).get o').osetUpd = (st.get o').osetUpd :=
  osetUpd_modify st o _ o' (fun _ => rfl)

theorem osetUpd_clearContainerOf (st : State) (o : ObjId) (o' : ObjId) :
    ((clearContainerOf st o).get o').osetUpd = (st.get o').osetUpd :=
  osetUpd_modify st o _ o' (fun _ => rfl)

theorem osetUpd_notify (st : State) (n : Notif) (o' : ObjId) :
    ((notify st n).get o').osetUpd = (st.get o').osetUpd := rfl

theorem log_setOsetUpdate (st : State) (o : ObjId) (f : FeatId) (b : Bool) :
    (setOsetUpdate st o f b).log = st.log := rfl

theorem osetUpd_update_container (m : Model) (o : ObjId) (f : FeatId)
    (vv pv : Option ObjId) (st : State) (o' : ObjId) :
    ((update_container m o f vv pv st).get o').osetUpd = (st.get o').osetUpd := by
  unfold update_container
  by_cases h1 : (m.feat f).isRef = false
  · simp [h1]
  · by_cases h2 : (m.feat f).containment = false
    · simp [h1, h2]
    · cases vv <;> cases pv <;>
        simp [h1, h2, osetUpd_setContainerOf, osetUpd_clearContainerOf]

theorem osetUpd_evalue_set_nop (m : Model) (ow : ObjId) (g : FeatId) (v : Value)
    (st : State) :
    ∀ st' e, evalue_set_nop m ow g v st = (st', e) →
      ∀ o, (st'.get o).osetUpd = (st.get o).osetUpd := by
  intro st' e h o
  unfold evalue_set_nop at h
  cases hc : check m st g v with
  | some er =>
    simp only [hc] at h
    obtain ⟨rfl, rfl⟩ := prodEq h
    rfl
  | none =>
    simp only [hc] at h
    by_cases hr : (m.feat g).isRef = false
    · simp only [hr, eq_self_iff_true, if_true] at h
      obtain ⟨rfl, rfl⟩ := prodEq h
      simp only [osetUpd_addIsset, osetUpd_notify, osetUpd_setSingle]
    · simp only [hr, if_false] at h
      obtain ⟨rfl, rfl⟩ := prodEq h
      simp only [osetUpd_update_container, osetUpd_addIsset, osetUpd_notify,
        osetUpd_setSingle]

theorem osetUpd_elist_append_nop (m : Model) (owner : ObjId) (f : FeatId)
    (x : ObjId) (st : State) :
    ∀ st' e, elist_append_nop m owner f x st = (st', e) →
      ∀ o, (st'.get o).osetUpd = (st.get o).osetUpd := by
  intro st' e h o
  unfold elist_append_nop at h
  cases hc : check m st f (.vobj x) with
  | some er =>
    simp only [hc] at h
    obtain ⟨rfl, rfl⟩ := prodEq h
    rfl
  | none =>
    simp only [hc] at h
    obtain ⟨rfl, rfl⟩ := prodEq h
    simp only [osetUpd_addIsset, osetUpd_notify, osetUpd_setManyVal,
      osetUpd_update_container]

theorem osetUpd_eset_add_nop (m : Model) (owner : ObjId) (f : FeatId)
    (x : ObjId) (st : State) :
    ∀ st' e, eset_add_nop m owner f x st = (st', e) →
      ∀ o, (st'.get o).osetUpd = (st.get o).osetUpd := by
  intro st' e h o
  unfold eset_add_nop at h
  cases hc : check m st f (.vobj x) with
  | some er =>
    simp only [hc] at h
    obtain ⟨rfl, rfl⟩ := prodEq h
    rfl
  | none =>
    simp only [hc] at h
    split at h
    · obtain ⟨rfl, rfl⟩ := prodEq h
      simp only [osetUpd_addIsset, osetUpd_setManyVal, osetUpd_update_container]
    · obtain ⟨rfl, rfl⟩ := prodEq h
      simp only [osetUpd_addIsset, osetUpd_notify, osetUpd_setManyVal,
        osetUpd_update_container]

theorem osetUpd_ecoll_remove_nop (m : Model) (owner : ObjId) (f : FeatId)
    (x : ObjId) (st : State) :
    ∀ st' e, ecoll_remove_nop m owner f x st = (st', e) →
      ∀ o, (st'.get o).osetUpd = (st.get o).osetUpd := by
  intro st' e h o
  simp only [ecoll_remove_nop] at h
  split at h
  · obtain ⟨rfl, rfl⟩ := prodEq h
    simp only [osetUpd_notify, osetUpd_setManyVal, osetUpd_update_container]
  · obtain ⟨rfl, rfl⟩ := prodEq h
    simp only [osetUpd_update_container]

theorem osetUpd_ecoll_append_nop (m : Model) (owner : ObjId) (f : FeatId)
    (x : ObjId) (st : State) :
    ∀ st' e, ecoll_append_nop m owner f x st = (st', e) →
      ∀ o, (st'.get o).osetUpd = (st.get o).osetUpd := by
  intro st' e h o
  unfold ecoll_append_nop at h
  by_cases hd : (m.feat f).derived = true
  · rw [if_pos hd] at h
    obtain ⟨rfl, rfl⟩ := prodEq h
    rfl
  · rw [if_neg hd] at h
    by_cases hu : (m.feat f).unique = true
    · rw [if_pos hu] at h
      exact osetUpd_eset_add_nop m owner f x st st' e h o
    · rw [if_neg hu] at h
      exact osetUpd_elist_append_nop m owner f x st st' e h o

theorem osetUpd_upd_opp (m : Model) (f : FeatId) (ow nv : ObjId) (r : Bool)
    (st : State) :
    ∀ st' e, ecoll_update_opposite m f ow nv r st = (st', e) →
      ∀ o, (st'.get o).osetUpd = (st.get o).osetUpd := by
  intro st' e h o
  unfold ecoll_update_opposite at h
  by_cases hr : (m.feat f).isRef = false
  · rw [if_pos hr] at h
    obtain ⟨rfl, rfl⟩ := prodEq h
    rfl
  · rw [if_neg hr] at h
    cases heo : (m.feat f).eOpposite with
    | none =>
      simp only [heo] at h
      by_cases hrm : (r && decide ((nv, f) ∈ (st.get ow).invRels)) = true
      · simp only [hrm, if_true] at h
        obtain ⟨rfl, rfl⟩ := prodEq h
        exact osetUpd_eraseInvRel st ow _ o
      · simp only [hrm, if_false] at h
        obtain ⟨rfl, rfl⟩ := prodEq h
        exact osetUpd_addInvRel st ow _ o
    | some opp =>
      simp only [heo] at h
      by_cases h1 : ((m.feat opp).many && !r) = true
      · rw [if_pos h1] at h
        exact osetUpd_ecoll_append_nop m ow opp nv st st' e h o
      · rw [if_neg h1] at h
        by_cases h2 : ((m.feat opp).many && r) = true
        · rw [if_pos h2] at h
          exact osetUpd_ecoll_remove_nop m ow opp nv st st' e h o
        · rw [if_neg h2] at h
          exact osetUpd_evalue_set_nop m ow opp _ st st' e h o

theorem osetUpd_eset_add (m : Model) (owner : ObjId) (f : FeatId) (x : ObjId)
    (st : State) :
    ∀ st' e, eset_add m owner f x true st = (st', e) →
      ∀ o, (st'.get o).osetUpd = (st.get o).osetUpd := by
  intro st' e h o
  unfold eset_add at h
  cases hc : check m st f (.vobj x) with
  | some er =>
    simp only [hc] at h
    obtain ⟨rfl, rfl⟩ := prodEq h
    rfl
  | none =>
    simp only [hc, if_true] at h
    rcases hop : ecoll_update_opposite m f x owner false
      (update_container m owner f (some x) none st) with ⟨st2, e2⟩
    rw [hop] at h
    have hopd := osetUpd_upd_opp m f x owner false _ _ _ hop
    cases e2 with
    | some er =>
      simp only [seqres] at h
      obtain ⟨rfl, rfl⟩ := prodEq h
      rw [hopd o, osetUpd_update_container]
    | none =>
      simp only [seqres] at h
      split at h
      · obtain ⟨rfl, rfl⟩ := prodEq h
        simp only [osetUpd_addIsset, osetUpd_setManyVal]
        rw [hopd o, osetUpd_update_container]
      · obtain ⟨rfl, rfl⟩ := prodEq h
        simp only [osetUpd_addIsset, osetUpd_notify, osetUpd_setManyVal]
        rw [hopd o, osetUpd_update_container]

theorem osetUpd_bulk_book_loop (m : Model) (owner : ObjId) (f : FeatId) :
    ∀ (l : List ObjId) (st : State) st' e,
      bulk_book_loop m owner f l st = (st', e) →
      ∀ o, (st'.get o).osetUpd = (st.get o).osetUpd := by
  intro l
  induction l with
  | nil =>
    intro st st' e h o
    simp only [bulk_book_loop] at h
    obtain ⟨rfl, rfl⟩ := prodEq h
    rfl
  | cons x xs ih =>
    intro st st' e h o
    simp only [bulk_book_loop] at h
    rcases hop : ecoll_update_opposite m f x owner false
      (update_container m owner f (some x) none st) with ⟨st2, e2⟩
    rw [hop] at h
    have hopd := osetUpd_upd_opp m f x owner false _ _ _ hop
    cases e2 with
    | some er =>
      simp only [seqres] at h
      obtain ⟨rfl, rfl⟩ := prodEq h
      rw [hopd o, osetUpd_update_container]
    | none =>
      simp only [seqres] at h
      rw [ih st2 st' e h o, hopd o, osetUpd_update_container]

theorem log_delta_evalue_set_nop (m : Model) (owner : ObjId) (f : FeatId)
    (v : Value) (st : State) :
    ∀ st' e, evalue_set_nop m owner f v st = (st', e) →
      ∃ ns, st'.log = st.log ++ ns ∧ ∀ n ∈ ns, n.feature = f := by
  intro st' e h
  unfold evalue_set_nop at h
  cases hc : check m st f v with
  | some er =>
    simp only [hc] at h
    obtain ⟨rfl, rfl⟩ := prodEq h
    exact ⟨[], by simp, by simp⟩
  | none =>
    simp only [hc] at h
    by_cases hr : (m.feat f).isRef = false
    · simp only [hr, eq_self_iff_true, if_true] at h
      obtain ⟨rfl, rfl⟩ := prodEq h
      simp only [log_addIsset, log_notify, log_setSingle]
      refine ⟨_, rfl, ?_⟩
      intro n hn
      simp at hn
      rw [hn]
    · simp only [hr, if_false] at h
      obtain ⟨rfl, rfl⟩ := prodEq h
      simp only [log_update_container, log_addIsset, log_notify, log_setSingle]
      refine ⟨_, rfl, ?_⟩
      intro n hn
      simp at hn
      rw [hn]

theorem log_delta_elist_append_nop (m : Model) (owner : ObjId) (f : FeatId)
    (x : ObjId) (st : State) :
    ∀ st' e, elist_append_nop m owner f x st = (st', e) →
      ∃ ns, st'.log = st.log ++ ns ∧ ∀ n ∈ ns, n.feature = f := by
  intro st' e h
  unfold elist_append_nop at h
  cases hc : check m st f (.vobj x) with
  | some er =>
    simp only [hc] at h
    obtain ⟨rfl, rfl⟩ := prodEq h
    exact ⟨[], by simp, by simp⟩
  | none =>
    simp only [hc] at h
    obtain ⟨rfl, rfl⟩ := prodEq h
    simp only [log_addIsset, log_notify, log_setManyVal, log_update_container]
    refine ⟨_, rfl, ?_⟩
    intro n hn
    simp at hn
    rw [hn]

theorem log_delta_eset_add_nop (m : Model) (owner : ObjId) (f : FeatId)
    (x : ObjId) (st : State) :
    ∀ st' e, eset_add_nop m owner f x st = (st', e) →
      ∃ ns, st'.log = st.log ++ ns ∧ ∀ n ∈ ns, n.feature = f := by
  intro st' e h
  unfold eset_add_nop at h
  cases hc : check m st f (.vobj x) with
  | some er =>
    simp only [hc] at h
    obtain ⟨rfl, rfl⟩ := prodEq h
    exact ⟨[], by simp, by simp⟩
  | none =>
    simp only [hc] at h
    split at h
    · obtain ⟨rfl, rfl⟩ := prodEq h
      simp only [log_addIsset, log_setManyVal, log_update_container]
      exact ⟨[], by simp, by simp⟩
    · obtain ⟨rfl, rfl⟩ := prodEq h
      simp only [log_addIsset, log_notify, log_setManyVal, log_update_container]
      refine ⟨_, rfl, ?_⟩
      intro n hn
      simp at hn
      rw [hn]

theorem log_delta_ecoll_remove_nop (m : Model) (owner : ObjId) (f : FeatId)
    (x : ObjId) (st : State) :
    ∀ st' e, ecoll_remove_nop m owner f x st = (st', e) →
      ∃ ns, st'.log = st.log ++ ns ∧ ∀ n ∈ ns, n.feature = f := by
  intro st' e h
  simp only [ecoll_remove_nop] at h
  split at h
  · obtain ⟨rfl, rfl⟩ := prodEq h
    simp only [log_notify, log_setManyVal, log_update_container]
    refine ⟨_, rfl, ?_⟩
    intro n hn
    simp at hn
    rw [hn]
  · obtain ⟨rfl, rfl⟩ := prodEq h
    exact ⟨[], by simp [log_update_container], by simp⟩

theorem log_delta_ecoll_append_nop (m : Model) (owner : ObjId) (f : FeatId)
    (x : ObjId) (st : State) :
    ∀ st' e, ecoll_append_nop m owner f x st = (st', e) →
      ∃ ns, st'.log = st.log ++ ns ∧ ∀ n ∈ ns, n.feature = f := by
  intro st' e h
  unfold ecoll_append_nop at h
  by_cases hd : (m.feat f).derived = true
  · rw [if_pos hd] at h
    obtain ⟨rfl, rfl⟩ := prodEq h
    exact ⟨[], by simp, by simp⟩
  · rw [if_neg hd] at h
    by_cases hu : (m.feat f).unique = true
    · rw [if_pos hu] at h
      exact log_delta_eset_add_nop m owner f x st st' e h
    · rw [if_neg hu] at h
      exact log_delta_elist_append_nop m owner f x st st' e h

theorem log_delta_upd_opp (m : Model) (f : FeatId) (ow nv : ObjId) (r : Bool)
    (st : State) :
    ∀ st' e, ecoll_update_opposite m f ow nv r st = (st', e) →
      ∃ ns, st'.log = st.log ++ ns ∧
        ∀ n ∈ ns, ∃ opp, (m.feat f).eOpposite = some opp ∧ n.feature = opp := by
  intro st' e h
  unfold ecoll_update_opposite at h
  by_cases hr : (m.feat f).isRef = false
  · rw [if_pos hr] at h
    obtain ⟨rfl, rfl⟩ := prodEq h
    exact ⟨[], by simp, by simp⟩
  · rw [if_neg hr] at h
    cases heo : (m.feat f).eOpposite with
    | none =>
      simp only [heo] at h
      by_cases hrm : (r && decide ((nv, f) ∈ (st.get ow).invRels)) = true
      · simp only [hrm, if_true] at h
        obtain ⟨rfl, rfl⟩ := prodEq h
        exact ⟨[], by rw [log_eraseInvRel]; simp, by simp⟩
      · simp only [hrm, if_false] at h
        obtain ⟨rfl, rfl⟩ := prodEq h
        exact ⟨[], by rw [log_addInvRel]; simp, by simp⟩
    | some opp =>
      simp only [heo] at h
      by_cases h1 : ((m.feat opp).many && !r) = true
      · rw [if_pos h1] at h
        obtain ⟨ns, hlog, hall⟩ := log_delta_ecoll_append_nop m ow opp nv st st' e h
        exact ⟨ns, hlog, fun n hn => ⟨opp, rfl, hall n hn⟩⟩
      · rw [if_neg h1] at h
        by_cases h2 : ((m.feat opp).many && r) = true
        · rw [if_pos h2] at h
          obtain ⟨ns, hlog, hall⟩ := log_delta_ecoll_remove_nop m ow opp nv st st' e h
          exact ⟨ns, hlog, fun n hn => ⟨opp, rfl, hall n hn⟩⟩
        · rw [if_neg h2] at h
          obtain ⟨ns, hlog, hall⟩ :=
            log_delta_evalue_set_nop m ow opp (if r then Value.vnone else Value.vobj nv)
              st st' e h
          exact ⟨ns, hlog, fun n hn => ⟨opp, rfl, hall n hn⟩⟩

theorem log_delta_eset_add_flag (m : Model) (owner : ObjId) (f : FeatId)
    (x : ObjId) (st : State) (hflag : f ∈ (st.get owner).osetUpd) :
    ∀ st' e, eset_add m owner f x true st = (st', e) →
      ∃ ns, st'.log = st.log ++ ns ∧
        ∀ n ∈ ns, ∃ opp, (m.feat f).eOpposite = some opp ∧ n.feature = opp := by
  intro st' e h
  unfold eset_add at h
  cases hc : check m st f (.vobj x) with
  | some er =>
    simp only [hc] at h
    obtain ⟨rfl, rfl⟩ := prodEq h
    exact ⟨[], by simp, by simp⟩
  | none =>
    simp only [hc, if_true] at h
    rcases hop : ecoll_update_opposite m f x owner false
      (update_container m owner f (some x) none st) with ⟨st2, e2⟩
    rw [hop] at h
    obtain ⟨ns, hlog, hall⟩ := log_delta_upd_opp m f x owner false _ _ _ hop
    rw [log_update_container] at hlog
    cases e2 with
    | some er =>
      simp only [seqres] at h
      obtain ⟨rfl, rfl⟩ := prodEq h
      exact ⟨ns, hlog, hall⟩
    | none =>
      simp only [seqres] at h
      have hflag2 : f ∈ ((setManyVal st2 owner f
          (setAdd (getMany st2 owner f) x)).get owner).osetUpd := by
        rw [osetUpd_setManyVal, osetUpd_upd_opp m f x owner false _ _ _ hop owner,
          osetUpd_update_container]
        exact hflag
      rw [if_pos hflag2] at h
      obtain ⟨rfl, rfl⟩ := prodEq h
      simp only [log_addIsset, log_setManyVal]
      exact ⟨ns, hlog, hall⟩

theorem log_delta_bulk_book_loop (m : Model) (owner : ObjId) (f : FeatId) :
    ∀ (l : List ObjId) (st : State) st' e,
      bulk_book_loop m owner f l st = (st', e) →
      ∃ ns, st'.log = st.log ++ ns ∧
        ∀ n ∈ ns, ∃ opp, (m.feat f).eOpposite = some opp ∧ n.feature = opp := by
  intro l
  induction l with
  | nil =>
    intro st st' e h
    simp only [bulk_book_loop] at h
    obtain ⟨rfl, rfl⟩ := prodEq h
    exact ⟨[], by simp, by simp⟩
  | cons x xs ih =>
    intro st st' e h
    simp only [bulk_book_loop] at h
    rcases hop : ecoll_update_opposite m f x owner false
      (update_container m owner f (some x) none st) with ⟨st2, e2⟩
    rw [hop] at h
    obtain ⟨ns1, hlog1, hall1⟩ := log_delta_upd_opp m f x owner false _ _ _ hop
    rw [log_update_container] at hlog1
    cases e2 with
    | some er =>
      simp only [seqres] at h
      obtain ⟨rfl, rfl⟩ := prodEq h
      exact ⟨ns1, hlog1, hall1⟩
    | none =>
      simp only [seqres] at h
      obtain ⟨ns2, hlog2, hall2⟩ := ih st2 st' e h
      refine ⟨ns1 ++ ns2, ?_, ?_⟩
      · rw [hlog2, hlog1, List.append_assoc]
      · intro n hn
        rcases List.mem_append.mp hn with h1 | h2
        exacts [hall1 n h1, hall2 n h2]

theorem log_delta_oset_phys_loop (m : Model) (owner : ObjId) (f : FeatId) :
    ∀ (l : List ObjId) (st : State) st' e,
      f ∈ (st.get owner).osetUpd →
      oset_phys_update_loop m owner f l st = (st', e) →
      ∃ ns, st'.log = st.log ++ ns ∧
        ∀ n ∈ ns, ∃ opp, (m.feat f).eOpposite = some opp ∧ n.feature = opp := by
  intro l
  induction l with
  | nil =>
    intro st st' e hflag h
    simp only [oset_phys_update_loop] at h
    obtain ⟨rfl, rfl⟩ := prodEq h
    exact ⟨[], by simp, by simp⟩
  | cons x xs ih =>
    intro st st' e hflag h
    simp only [oset_phys_update_loop] at h
    rcases hadd : eset_add m owner f x true st with ⟨st2, e2⟩
    rw [hadd] at h
    obtain ⟨ns1, hlog1, hall1⟩ := log_delta_eset_add_flag m owner f x st hflag _ _ hadd
    cases e2 with
    | some er =>
      simp only [seqres] at h
      obtain ⟨rfl, rfl⟩ := prodEq h
      exact ⟨ns1, hlog1, hall1⟩
    | none =>
      simp only [seqres] at h
      have hflag2 : f ∈ (st2.get owner).osetUpd := by
        rw [osetUpd_eset_add m owner f x st _ _ hadd owner]
        exact hflag
      obtain ⟨ns2, hlog2, hall2⟩ := ih st2 st' e hflag2 h
      refine ⟨ns1 ++ ns2, ?_, ?_⟩
      · rw [hlog2, hlog1, List.append_assoc]
      · intro n hn
        rcases List.mem_append.mp hn with h1 | h2
        exacts [hall1 n h1, hall2 n h2]

/-- C4: for a feature that is not its own opposite, a successful bulk insert
emits, among the owner's notifications for that feature, exactly one
notification — an ADD_MANY carrying the entire inserted list — through both
EList.extend and EOrderedSet.update (whose per-element physical adds are
muted by the _orderedset_update flag the update left set in the state), and
a successful single-element append emits exactly one ADD carrying that
element, through both EList.append and EAbstractSet.add, the latter on a
collection whose _orderedset_update flag is clear (as it is outside a
bulk update); opposite maintenance only ever notifies under the opposite
feature on the linked objects. -/
theorem C4_batching (m : Model) (st : State) (owner : ObjId) (f : FeatId)
    (l : List ObjId) (x : ObjId)
    (hopp : ∀ opp, (m.feat f).eOpposite = some opp → opp ≠ f) :
    (∀ st', elist_extend m owner f l st = (st', none) →
      ∃ ns, st'.log = st.log ++ ns ∧
        ns.filter (fun n => n.target == owner && n.feature == f) =
          [{ target := owner, feature := f, kind := .addMany, new := .many l }]) ∧
    (∀ st', eset_update m owner f l st = (st', none) →
      ∃ ns, st'.log = st.log ++ ns ∧
        ns.filter (fun n => n.target == owner && n.feature == f) =
          [{ target := owner, feature := f, kind := .addMany, new := .many l }]) ∧
    (∀ st', elist_append m owner f x true st = (st', none) →
      ∃ ns, st'.log = st.log ++ ns ∧
        ns.filter (fun n => n.target == owner && n.feature == f) =
          [{ target := owner, feature := f, kind := .add, new := .one (.vobj x) }]) ∧
    (f ∉ (st.get owner).osetUpd →
      ∀ st', eset_add m owner f x true st = (st', none) →
      ∃ ns, st'.log = st.log ++ ns ∧
        ns.filter (fun n => n.target == owner && n.feature == f) =
          [{ target := owner, feature := f, kind := .add, new := .one (.vobj x) }]) := by
  refine ⟨?_, ?_, ?_, ?_⟩
  · intro st' h
    unfold elist_extend at h
    cases hca : checkAll m st f l with
    | some er =>
      simp only [hca] at h
      obtain ⟨_, h2⟩ := prodEq h
      exact absurd h2 (by simp)
    | none =>
      simp only [hca] at h
      rcases hbb : bulk_book_loop m owner f l st with ⟨st1, e1⟩
      rw [hbb] at h
      cases e1 with
      | some er =>
        simp only [seqres] at h
        obtain ⟨_, h2⟩ := prodEq h
        exact absurd h2 (by simp)
      | none =>
        simp only [seqres] at h
        obtain ⟨rfl, -⟩ := prodEq h
        obtain ⟨ns1, hlog1, hall1⟩ := log_delta_bulk_book_loop m owner f l st _ _ hbb
        refine ⟨ns1 ++ [{ target := owner, feature := f, kind := .addMany, new := .many l }], ?_, ?_⟩
        · simp only [log_addIsset, log_notify, log_setManyVal]
          rw [hlog1, List.append_assoc]
        · rw [List.filter_append, filter_none_of_oppdelta m f owner ns1 hopp hall1]
          simp
  · intro st' h
    simp only [eset_update] at h
    cases hca : checkAll m (setOsetUpdate st owner f true) f l with
    | some er =>
      simp only [hca] at h
      obtain ⟨_, h2⟩ := prodEq h
      exact absurd h2 (by simp)
    | none =>
      simp only [hca] at h
      rcases hbb : bulk_book_loop m owner f l (setOsetUpdate st owner f true)
        with ⟨st1, e1⟩
      rw [hbb] at h
      cases e1 with
      | some er =>
        simp only [seqres] at h
        obtain ⟨_, h2⟩ := prodEq h
        exact absurd h2 (by simp)
      | none =>
        simp only [seqres] at h
        rcases hph : oset_phys_update_loop m owner f l st1 with ⟨st2, e2⟩
        rw [hph] at h
        cases e2 with
        | some er =>
          simp only [seqres] at h
          obtain ⟨_, h2⟩ := prodEq h
          exact absurd h2 (by simp)
        | none =>
          simp only [seqres] at h
          obtain ⟨rfl, -⟩ := prodEq h
          obtain ⟨ns1, hlog1, hall1⟩ := log_delta_bulk_book_loop m owner f l _ _ _ hbb
          have hflag1 : f ∈ (st1.get owner).osetUpd := by
            rw [osetUpd_bulk_book_loop m owner f l _ _ _ hbb owner]
            unfold setOsetUpdate
            rw [State.get_modify_self]
            exact mem_setAdd_self _ _
          obtain ⟨ns2, hlog2, hall2⟩ :=
            log_delta_oset_phys_loop m owner f l st1 _ _ hflag1 hph
          refine ⟨ns1 ++ ns2 ++ [{ target := owner, feature := f, kind := .addMany, new := .many l }], ?_, ?_⟩
          · simp only [log_setOsetUpdate, log_addIsset, log_notify]
            rw [hlog2, hlog1, log_setOsetUpdate]
            simp [List.append_assoc]
          · rw [List.filter_append, List.filter_append,
              filter_none_of_oppdelta m f owner ns1 hopp hall1,
              filter_none_of_oppdelta m f owner ns2 hopp hall2]
            simp
  · intro st' h
    unfold elist_append at h
    cases hc : check m st f (.vobj x) with
    | some er =>
      simp only [hc] at h
      obtain ⟨_, h2⟩ := prodEq h
      exact absurd h2 (by simp)
    | none =>
      simp only [hc, if_true] at h
      rcases hop : ecoll_update_opposite m f x owner false
        (update_container m owner f (some x) none st) with ⟨st1, e1⟩
      rw [hop] at h
      cases e1 with
      | some er =>
        simp only [seqres] at h
        obtain ⟨_, h2⟩ := prodEq h
        exact absurd h2 (by simp)
      | none =>
        simp only [seqres] at h
        obtain ⟨rfl, -⟩ := prodEq h
        obtain ⟨ns1, hlog1, hall1⟩ := log_delta_upd_opp m f x owner false _ _ _ hop
        rw [log_update_container] at hlog1
        refine ⟨ns1 ++ [{ target := owner, feature := f, kind := .add, new := .one (.vobj x) }], ?_, ?_⟩
        · simp only [log_addIsset, log_notify, log_setManyVal]
          rw [hlog1, List.append_assoc]
        · rw [List.filter_append, filter_none_of_oppdelta m f owner ns1 hopp hall1]
          simp
  · intro hnof st' h
    unfold eset_add at h
    cases hc : check m st f (.vobj x) with
    | some er =>
      simp only [hc] at h
      obtain ⟨_, h2⟩ := prodEq h
      exact absurd h2 (by simp)
    | none =>
      simp only [hc, if_true] at h
      rcases hop : ecoll_update_opposite m f x owner false
        (update_container m owner f (some x) none st) with ⟨st1, e1⟩
      rw [hop] at h
      cases e1 with
      | some er =>
        simp only [seqres] at h
        obtain ⟨_, h2⟩ := prodEq h
        exact absurd h2 (by simp)
      | none =>
        simp only [seqres] at h
        have hnof3 : f ∉ ((setManyVal st1 owner f
            (setAdd (getMany st1 owner f) x)).get owner).osetUpd := by
          rw [osetUpd_setManyVal, osetUpd_upd_opp m f x owner false _ _ _ hop owner,
            osetUpd_update_container]
          exact hnof
        rw [if_neg hnof3] at h
        obtain ⟨rfl, -⟩ := prodEq h
        obtain ⟨ns1, hlog1, hall1⟩ := log_delta_upd_opp m f x owner false _ _ _ hop
        rw [log_update_container] at hlog1
        refine ⟨ns1 ++ [{ target := owner, feature := f, kind := .add, new := .one (.vobj x) }], ?_, ?_⟩
        · simp only [log_addIsset, log_notify, log_setManyVal]
          rw [hlog1, List.append_assoc]
        · rw [List.filter_append, filter_none_of_oppdelta m f owner ns1 hopp hall1]
          simp

theorem C4_witness :
    (∃ ns, ((elist_extend batchModel 1 0 [5, 6] {}).1).log = ({} : State).log ++ ns ∧
      ns.filter (fun n => n.target == 1 && n.feature == 0) =
        [{ target := 1, feature := 0, kind := .addMany, new := .many [5, 6] }]) ∧
    (∃ ns, ((eset_update batchModel 1 0 [5, 6] {}).1).log = ({} : State).log ++ ns ∧
      ns.filter (fun n => n.target == 1 && n.feature == 0) =
        [{ target := 1, feature := 0, kind := .addMany, new := .many [5, 6] }]) ∧
    (∃ ns, ((elist_append batchModel 1 0 5 true {}).1).log = ({} : State).log ++ ns ∧
      ns.filter (fun n => n.target == 1 && n.feature == 0) =
        [{ target := 1, feature := 0, kind := .add, new := .one (.vobj 5) }]) ∧
    (∃ ns, ((eset_add batchModel 1 0 5 true {}).1).log = ({} : State).log ++ ns ∧
      ns.filter (fun n => n.target == 1 && n.feature == 0) =
        [{ target := 1, feature := 0, kind := .add, new := .one (.vobj 5) }]) := by
  have h := C4_batching batchModel {} 1 0 [5, 6] 5
    (by
      intro opp ho
      have h1 : (some 1 : Option FeatId) = some opp := ho
      cases h1
      decide)
  exact ⟨h.1 _ (by decide), h.2.1 _ (by decide), h.2.2.1 _ (by decide),
    h.2.2.2 (by decide) _ (by decide)⟩
